import Mathlib

/-!
Verification development for the mcp-qdrant-memory knowledge-graph server.

The repository stores a knowledge graph (entities + typed relations) as
content-addressed chunks in a Qdrant vector collection and answers
semantic / keyword / hybrid searches plus token-budgeted graph views.

Shallow embedding conventions:
* The external Qdrant collection is modelled as an association list of
  points `(id, payload)`; its upsert semantics (a point write replaces the
  point with the same id) follow the spec's description of the external
  vector-index interface (spec section 6: point upsert (id, vector, payload)).
  Embedding vectors are irrelevant to every claim proved here and are omitted
  from the point model.
* `crypto.createHash("sha256") ... readUInt32BE(0)` (`hashString` in
  src/unnamed/part_000, lines 306-311) is an external library call; it is
  modelled as an arbitrary function `h : String → Nat` supplied as a
  parameter, which preserves exactly the property the code relies on:
  determinism (equal key strings give equal ids).
* `new Date().toISOString()` is modelled as a `now : String` parameter.
* JavaScript `a || b` on strings is falsy only for the empty string /
  undefined; helpers `jsOrS` / `jsTruthy` model this.
-/

/-- Entity as in src/types.ts (used by src/src/index.ts and the persistence
layer): name, entityType, ordered observations. -/
structure Entity where
  name : String
  entityType : String
  observations : List String
deriving Repr, DecidableEq

/-- Relation as in src/types.ts: `from`, `to`, `relationType`.
`from` is a Lean keyword, so the fields are named with guillemets. -/
structure Relation where
  «from» : String
  «to» : String
  relationType : String
deriving Repr, DecidableEq

/-- Chunk payload as written/read by src/unnamed/part_000 (the
`QdrantPersistence` class).  Optional fields model JS fields that may be
absent (`undefined`); the `meta*` fields model the nested
`metadata.{entity_type, observations}` layout of the newer chunk format. -/
structure ChunkPayload where
  type : String
  chunk_type : String
  entity_name : String
  nameAlt : Option String := none
  entity_type : String
  metaEntityType : Option String := none
  observations : Option (List String) := none
  metaObservations : Option (List String) := none
  content : String
  file_path : Option String := none
  relation_target : Option String := none
  relation_type : Option String := none
  fromF : Option String := none
  toF : Option String := none
  created_at : String
deriving Repr, DecidableEq

/-- The Qdrant collection modelled as a list of points `(id, payload)`. -/
abbrev Store := List (Nat × ChunkPayload)

/-- Point upsert of the external vector index: writing a point with id `id`
replaces any existing point with that id (spec section 6). -/
def upsertPoint (g : Store) (id : Nat) (p : ChunkPayload) : Store :=
  g.filter (fun q => q.1 ≠ id) ++ [(id, p)]

/-- JS `a || b` for an optional string against a default: empty string and
`undefined` are falsy. -/
def jsOrS (o : Option String) (d : String) : String :=
  match o with
  | some s => if s = "" then d else s
  | none => d

/-- JS truthiness of an optional string value. -/
def jsTruthy (o : Option String) : Option String :=
  match o with
  | some s => if s = "" then none else some s
  | none => none

/-- Canonical chunk-id key for a manually persisted entity
(src/unnamed/part_000, line 326): `manual::<name>::metadata`. -/
def entityKeyString (name : String) : String :=
  "manual::" ++ name ++ "::metadata"

/-- Deterministic point id of an entity's metadata chunk: the hash of the
canonical key string (src/unnamed/part_000, lines 326-327). -/
def entityPointId (h : String → Nat) (name : String) : Nat :=
  h (entityKeyString name)

/-- Metadata-chunk payload built by `persistEntity`
(src/unnamed/part_000, lines 329-338). -/
def entityPayload (e : Entity) (now : String) : ChunkPayload :=
  { type := "chunk"
    chunk_type := "metadata"
    entity_name := e.name
    entity_type := e.entityType
    observations := some e.observations
    content := String.intercalate ". " e.observations
    file_path := none
    created_at := now }

/-- `persistEntity` (src/unnamed/part_000, lines 313-349): compute the
deterministic id from the canonical key string, upsert one point. -/
def persistEntity (h : String → Nat) (now : String) (g : Store) (e : Entity) : Store :=
  upsertPoint g (entityPointId h e.name) (entityPayload e now)

/-- Relation id string (src/unnamed/part_000, line 361):
`<from>-<relationType>-<to>`. -/
def relationIdString (r : Relation) : String :=
  r.«from» ++ "-" ++ r.relationType ++ "-" ++ r.«to»

/-- Canonical chunk-id key for a relation (line 362):
`relation::<relationId>::relation`. -/
def relationKeyString (r : Relation) : String :=
  "relation::" ++ relationIdString r ++ "::relation"

/-- Deterministic point id of a relation chunk. -/
def relationPointId (h : String → Nat) (r : Relation) : Nat :=
  h (relationKeyString r)

/-- Relation-chunk payload built by `persistRelation`
(src/unnamed/part_000, lines 365-375).  Note the source stores the relation
id string in `entity_name`, the endpoints in `from`/`to`, and does not set
`relation_target`. -/
def relationPayload (r : Relation) (now : String) : ChunkPayload :=
  { type := "chunk"
    chunk_type := "relation"
    entity_name := relationIdString r
    entity_type := "relation"
    content := r.«from» ++ " " ++ r.relationType ++ " " ++ r.«to»
    fromF := some r.«from»
    toF := some r.«to»
    relation_type := some r.relationType
    created_at := now }

/-- `persistRelation` (src/unnamed/part_000, lines 351-386). -/
def persistRelation (h : String → Nat) (now : String) (g : Store) (r : Relation) : Store :=
  upsertPoint g (relationPointId h r) (relationPayload r now)

/-- The points of an upserted store that carry the upserted id are exactly
the single fresh point. -/
theorem filter_upsertPoint_self (g : Store) (id : Nat) (p : ChunkPayload) :
    (upsertPoint g id p).filter (fun q => q.1 = id) = [(id, p)] := by
  unfold upsertPoint
  rw [List.filter_append]
  have h1 : (g.filter (fun q => decide (q.1 ≠ id))).filter (fun q => decide (q.1 = id)) = [] := by
    rw [List.filter_eq_nil_iff]
    intro a ha
    have := List.of_mem_filter ha
    simp only [decide_eq_true_eq] at this ⊢
    intro hc
    exact this hc
  simp [h1]

/-- Helper: upserting never drops points with other ids and appends the new
point, hence membership of a point with a different id is preserved. -/
theorem mem_upsertPoint_of_ne (g : Store) (id : Nat) (p : ChunkPayload)
    (q : Nat × ChunkPayload) (hq : q ∈ g) (hne : q.1 ≠ id) :
    q ∈ upsertPoint g id p := by
  unfold upsertPoint
  refine List.mem_append_left _ ?_
  exact List.mem_filter.2 ⟨hq, by simpa using hne⟩

/-- C1: persisting an entity twice under the same name writes through the
same deterministic id (the hash of `manual::<name>::metadata`) and leaves
exactly one point with that id, carrying the second write's payload
(last-write-wins, no merge); likewise persisting the same relation triple
twice leaves exactly one point with id `hash(relation::<from>-<type>-<to>::relation)`
carrying the second write's payload. -/
theorem C1_persist_upsert_last_write_wins
    (h : String → Nat) (now1 now2 : String) (g : Store)
    (e1 e2 : Entity) (r : Relation) (hname : e1.name = e2.name) :
    entityPointId h e1.name = entityPointId h e2.name ∧
    ((persistEntity h now2 (persistEntity h now1 g e1) e2).filter
        (fun q => q.1 = entityPointId h e2.name))
      = [(entityPointId h e2.name, entityPayload e2 now2)] ∧
    ((persistRelation h now2 (persistRelation h now1 g r) r).filter
        (fun q => q.1 = relationPointId h r))
      = [(relationPointId h r, relationPayload r now2)] := by
  refine ⟨by rw [hname], ?_, ?_⟩
  · unfold persistEntity
    exact filter_upsertPoint_self _ _ _
  · unfold persistRelation
    exact filter_upsertPoint_self _ _ _

/-- C1 witness: the spec's concrete scenario.  Starting from the empty
store, persisting `{name:"foo", entityType:"function", observations:["does X"]}`
and then the same name with observations `["does Y"]` leaves exactly one
chunk for "foo", whose observations are `["does Y"]`. -/
theorem C1_persist_upsert_last_write_wins_witness :
    (Entity.mk "foo" "function" ["does X"]).name
      = (Entity.mk "foo" "function" ["does Y"]).name ∧
    ((persistEntity String.length "t2"
        (persistEntity String.length "t1" []
          (Entity.mk "foo" "function" ["does X"]))
        (Entity.mk "foo" "function" ["does Y"])).filter
        (fun q => q.1 = entityPointId String.length "foo"))
      = [(entityPointId String.length "foo",
          entityPayload (Entity.mk "foo" "function" ["does Y"]) "t2")] ∧
    ((persistEntity String.length "t2"
        (persistEntity String.length "t1" []
          (Entity.mk "foo" "function" ["does X"]))
        (Entity.mk "foo" "function" ["does Y"])).map
          (fun q => (q.2.entity_name, q.2.observations)))
      = [("foo", some ["does Y"])] := by
  refine ⟨rfl, ?_, by decide⟩
  exact (C1_persist_upsert_last_write_wins String.length "t1" "t2" []
    (Entity.mk "foo" "function" ["does X"]) (Entity.mk "foo" "function" ["does Y"])
    (Relation.mk "A" "B" "calls") rfl).2.1

/-!
Paginated full scan `_getRawData` (src/unnamed/part_000, lines 1035-1146).

The external scroll API hands back the matching points page by page; a scan
input is modelled as the list of pages (`List (List ChunkPayload)`).  The
source's loop-exit test `entityCount >= maxEntities && offset === null` can
never fire because `offset` has just been normalised to a string, a number
or `undefined` (lines 1127-1129), so the loop always runs until the cursor
is exhausted; the model therefore consumes every page.
`Number.MAX_SAFE_INTEGER` / an absent limit are modelled as `none`.
-/

/-- Entity reconstructed from a metadata chunk (lines 1089-1096):
`entity_name || name || 'unknown'`, `metadata?.entity_type || entity_type`,
`observations || metadata?.observations || []`. -/
def entityOfMetadata (p : ChunkPayload) : Entity :=
  { name := jsOrS (some p.entity_name) (jsOrS p.nameAlt "unknown")
    entityType := jsOrS p.metaEntityType p.entity_type
    observations := (p.observations.orElse (fun _ => p.metaObservations)).getD [] }

/-- Relation reconstructed from a relation chunk (lines 1107-1122):
`from = entity_name || from`, `to = relation_target || to`,
`relationType = relation_type`; the relation is kept only when all three
are truthy. -/
def relationOfChunk (p : ChunkPayload) : Option Relation :=
  match (jsTruthy (some p.entity_name)).orElse (fun _ => jsTruthy p.fromF),
        (jsTruthy p.relation_target).orElse (fun _ => jsTruthy p.toF),
        jsTruthy p.relation_type with
  | some f, some t, some ty => some { «from» := f, «to» := t, relationType := ty }
  | _, _, _ => none

/-- Chunk kinds that are not entity types (lines 1078, 1522). -/
def knownChunkTypes : List String := ["metadata", "implementation"]

/-- The `passesFilter` computation of `_getRawData` (lines 1075-1086). -/
def passesEntityTypesFilter (entityTypes : Option (List String)) (p : ChunkPayload) : Bool :=
  match entityTypes with
  | none => true
  | some ts =>
    if ts.isEmpty then true
    else
      let actual := ts.filter (fun t => !(knownChunkTypes.contains t))
      if actual.isEmpty then true
      else actual.contains (jsOrS p.metaEntityType p.entity_type)

/-- Loop state of `_getRawData`: collected entities, relations, the
unfiltered entity log used for relation-type filtering, and the entity
counter checked against the cap. -/
structure ScanState where
  entities : List Entity
  relations : List Relation
  allEntities : List Entity
  entityCount : Nat
deriving Repr, DecidableEq

/-- The entity-cap guard `entityCount < maxEntities` (line 1073); an absent
limit (`Number.MAX_SAFE_INTEGER`) never blocks. -/
def underCap (limit : Option Nat) (c : Nat) : Bool :=
  match limit with
  | none => true
  | some m => c < m

/-- One iteration of the point loop of `_getRawData` (lines 1065-1125). -/
def scanChunkPoint (limit : Option Nat) (entityTypes : Option (List String))
    (st : ScanState) (p : ChunkPayload) : ScanState :=
  if p.type = "chunk" then
    if p.chunk_type = "metadata" then
      if underCap limit st.entityCount then
        if passesEntityTypesFilter entityTypes p then
          { st with allEntities := st.allEntities ++ [entityOfMetadata p]
                    entities := st.entities ++ [entityOfMetadata p]
                    entityCount := st.entityCount + 1 }
        else
          { st with allEntities := st.allEntities ++ [entityOfMetadata p] }
      else st
    else if p.chunk_type = "relation" then
      match relationOfChunk p with
      | some r => { st with relations := st.relations ++ [r] }
      | none => st
    else st
  else st

/-- The scan over one page of scroll results. -/
def scanBatch (limit : Option Nat) (entityTypes : Option (List String))
    (st : ScanState) (batch : List ChunkPayload) : ScanState :=
  batch.foldl (scanChunkPoint limit entityTypes) st

/-- The scan over all pages, batch after batch until the cursor is
exhausted. -/
def scanPages (limit : Option Nat) (entityTypes : Option (List String))
    (st : ScanState) (pages : List (List ChunkPayload)) : ScanState :=
  pages.foldl (scanBatch limit entityTypes) st

/-- Entity type recorded for a name by the `entityTypeMap` of
`filterRelationsByEntityTypes` (lines 1527-1528): `Map.set` makes the last
entity with a given name win. -/
def lastTypeOf (allEntities : List Entity) (name : String) : Option String :=
  ((allEntities.filter (fun e => e.name = name)).getLast?).map (fun e => e.entityType)

/-- `filterRelationsByEntityTypes` (src/unnamed/part_000, lines 1518-1540). -/
def filterRelationsByEntityTypes (relations : List Relation) (allEntities : List Entity)
    (entityTypes : Option (List String)) : List Relation :=
  match entityTypes with
  | none => relations
  | some ts =>
    if ts.isEmpty then relations
    else
      let actual := ts.filter (fun t => !(knownChunkTypes.contains t))
      if actual.isEmpty then relations
      else
        relations.filter (fun rel =>
          (match lastTypeOf allEntities rel.«from» with
           | some t => actual.contains t
           | none => false)
          || (match lastTypeOf allEntities rel.«to» with
              | some t => actual.contains t
              | none => false))

/-- `_getRawData` (src/unnamed/part_000, lines 1035-1146): paginated scan
from the empty state, then relation post-filtering. -/
def getRawData (pages : List (List ChunkPayload)) (limit : Option Nat)
    (entityTypes : Option (List String)) : List Entity × List Relation :=
  let st := scanPages limit entityTypes ⟨[], [], [], 0⟩ pages
  (st.entities, filterRelationsByEntityTypes st.relations st.allEntities entityTypes)

/-- Relation contributed by one scanned point, if any. -/
def relationContribution (p : ChunkPayload) : Option Relation :=
  if p.type = "chunk" ∧ p.chunk_type = "relation" then relationOfChunk p else none

theorem scanChunkPoint_relations (limit : Option Nat) (ets : Option (List String))
    (st : ScanState) (p : ChunkPayload) :
    (scanChunkPoint limit ets st p).relations
      = st.relations ++ (relationContribution p).toList := by
  unfold scanChunkPoint
  by_cases h1 : p.type = "chunk"
  case neg =>
    have hc : relationContribution p = none := by
      unfold relationContribution
      rw [if_neg]
      rintro ⟨ha, -⟩
      exact h1 ha
    rw [if_neg h1, hc]
    simp
  case pos =>
    by_cases h2 : p.chunk_type = "metadata"
    · have hc : relationContribution p = none := by
        unfold relationContribution
        rw [if_neg]
        rintro ⟨-, hb⟩
        rw [h2] at hb
        exact absurd hb (by decide)
      rw [if_pos h1, if_pos h2, hc]
      split
      · split <;> simp
      · simp
    · by_cases h4 : p.chunk_type = "relation"
      · have hc : relationContribution p = relationOfChunk p := by
          unfold relationContribution
          rw [if_pos ⟨h1, h4⟩]
        rw [if_pos h1, if_neg h2, if_pos h4, hc]
        cases hr : relationOfChunk p <;> simp [hr]
      · have hc : relationContribution p = none := by
          unfold relationContribution
          rw [if_neg]
          rintro ⟨-, hb⟩
          exact h4 hb
        rw [if_pos h1, if_neg h2, if_neg h4, hc]
        simp

theorem scanBatchFold_relations (limit : Option Nat) (ets : Option (List String)) :
    ∀ (pts : List ChunkPayload) (st : ScanState),
      (pts.foldl (scanChunkPoint limit ets) st).relations
        = st.relations ++ pts.filterMap relationContribution := by
  intro pts
  induction pts with
  | nil => intro st; simp
  | cons p tl ih =>
    intro st
    rw [List.foldl_cons, ih, List.filterMap_cons]
    rw [scanChunkPoint_relations]
    cases hr : relationContribution p <;> simp [hr]

theorem scanChunkPoint_count_inv (limit : Option Nat) (ets : Option (List String))
    (n : Nat) (st : ScanState) (p : ChunkPayload)
    (hlim : limit = some n)
    (hlen : st.entities.length ≤ st.entityCount) (hcap : st.entityCount ≤ n) :
    (scanChunkPoint limit ets st p).entities.length
        ≤ (scanChunkPoint limit ets st p).entityCount
      ∧ (scanChunkPoint limit ets st p).entityCount ≤ n := by
  subst hlim
  unfold scanChunkPoint
  by_cases h1 : p.type = "chunk"
  case neg =>
    rw [if_neg h1]
    exact ⟨hlen, hcap⟩
  case pos =>
    rw [if_pos h1]
    by_cases h2 : p.chunk_type = "metadata"
    · rw [if_pos h2]
      by_cases h3 : underCap (some n) st.entityCount = true
      · rw [if_pos h3]
        have hlt : st.entityCount < n := by simpa [underCap] using h3
        by_cases h4 : passesEntityTypesFilter ets p = true
        · rw [if_pos h4]
          refine ⟨?_, hlt⟩
          simpa using Nat.add_le_add_right hlen 1
        · rw [if_neg h4]
          exact ⟨hlen, hcap⟩
      · rw [if_neg h3]
        exact ⟨hlen, hcap⟩
    · rw [if_neg h2]
      by_cases h4 : p.chunk_type = "relation"
      · rw [if_pos h4]
        split <;> exact ⟨hlen, hcap⟩
      · rw [if_neg h4]
        exact ⟨hlen, hcap⟩

theorem scanBatchFold_count_inv (ets : Option (List String)) (n : Nat) :
    ∀ (pts : List ChunkPayload) (st : ScanState),
      st.entities.length ≤ st.entityCount → st.entityCount ≤ n →
      (pts.foldl (scanChunkPoint (some n) ets) st).entities.length
          ≤ (pts.foldl (scanChunkPoint (some n) ets) st).entityCount
        ∧ (pts.foldl (scanChunkPoint (some n) ets) st).entityCount ≤ n := by
  intro pts
  induction pts with
  | nil => intro st h1 h2; exact ⟨h1, h2⟩
  | cons p tl ih =>
    intro st h1 h2
    rw [List.foldl_cons]
    obtain ⟨h1', h2'⟩ := scanChunkPoint_count_inv (some n) ets n st p rfl h1 h2
    exact ih _ h1' h2'

theorem scanPages_eq_join (limit : Option Nat) (ets : Option (List String)) :
    ∀ (pages : List (List ChunkPayload)) (st : ScanState),
      scanPages limit ets st pages
        = pages.flatten.foldl (scanChunkPoint limit ets) st := by
  intro pages
  induction pages with
  | nil => intro st; simp [scanPages]
  | cons pg tl ih =>
    intro st
    simp only [scanPages, List.foldl_cons, List.flatten_cons, List.foldl_append]
    exact ih _

/-- C6: with an entity cap `n` and no entity-type filter, the paginated
scan accumulates at most `n` entities, while the relation list collects the
relation chunks of every page — the scan keeps running batch after batch
after the entity cap is reached, and relations are not capped by `n`. -/
theorem C6_scan_cap_entities_not_relations
    (pages : List (List ChunkPayload)) (n : Nat) :
    (getRawData pages (some n) none).1.length ≤ n ∧
    (getRawData pages (some n) none).2
      = pages.flatten.filterMap relationContribution := by
  unfold getRawData
  rw [scanPages_eq_join]
  constructor
  · have := scanBatchFold_count_inv none n pages.flatten ⟨[], [], [], 0⟩
      (by simp) (Nat.zero_le n)
    exact le_trans this.1 this.2
  · simp only [filterRelationsByEntityTypes]
    rw [scanBatchFold_relations]
    simp

/-!
`KnowledgeGraphManager.addRelations` (src/src/index.ts, lines 57-73):
the current entities are loaded once from Qdrant (`getRawGraph` with
`Number.MAX_SAFE_INTEGER`, i.e. an uncapped raw scan), then each relation
is checked and persisted in order; the first relation with a missing
endpoint raises `Entity not found: ...` and stops the loop, leaving the
relations persisted so far in the store (no rollback).
-/

/-- Entities reconstructed by the uncapped raw scan that `addRelations`
uses for endpoint validation (`getRawGraph(Number.MAX_SAFE_INTEGER)`,
src/src/index.ts lines 59 and 136-149).  The scroll pagination of the
external index is transparent to the result, so the store's payloads are
presented as a single page. -/
def rawEntities (g : Store) : List Entity :=
  (getRawData [g.map (fun q => q.2)] none none).1

/-- The two `currentGraph.entities.some(...)` endpoint checks of
`addRelations` (src/src/index.ts, lines 62 and 65). -/
def relationEndpointsPresent (ents : List Entity) (r : Relation) : Bool :=
  ents.any (fun e => e.name = r.«from») && ents.any (fun e => e.name = r.«to»)

/-- The relation loop of `addRelations`: validate each relation against the
pre-loaded entity list, persist it, stop with an error on the first missing
endpoint.  The returned store is the store as mutated so far. -/
def addRelationsGo (h : String → Nat) (now : String) (ents : List Entity) :
    Store → List Relation → Store × Option String
  | g, [] => (g, none)
  | g, r :: rest =>
    if ents.any (fun e => e.name = r.«from») then
      if ents.any (fun e => e.name = r.«to») then
        addRelationsGo h now ents (persistRelation h now g r) rest
      else (g, some ("Entity not found: " ++ r.«to»))
    else (g, some ("Entity not found: " ++ r.«from»))

/-- `KnowledgeGraphManager.addRelations` (src/src/index.ts, lines 57-73). -/
def addRelations (h : String → Nat) (now : String) (g : Store) (rels : List Relation) :
    Store × Option String :=
  addRelationsGo h now (rawEntities g) g rels

theorem addRelationsGo_spec (h : String → Nat) (now : String) (ents : List Entity) :
    ∀ (good : List Relation) (g : Store) (bad : Relation) (rest : List Relation),
      (∀ r ∈ good, relationEndpointsPresent ents r = true) →
      relationEndpointsPresent ents bad = false →
      (addRelationsGo h now ents g (good ++ bad :: rest)).1
          = good.foldl (persistRelation h now) g
      ∧ (addRelationsGo h now ents g (good ++ bad :: rest)).2.isSome = true := by
  intro good
  induction good with
  | nil =>
    intro g bad rest _ hbad
    rw [List.nil_append]
    unfold addRelationsGo
    by_cases hfrom : (ents.any fun e => e.name = bad.«from») = true
    · have hto : ¬ ((ents.any fun e => e.name = bad.«to») = true) := by
        intro hto'
        unfold relationEndpointsPresent at hbad
        rw [hfrom, hto'] at hbad
        exact absurd hbad (by decide)
      rw [if_pos hfrom, if_neg hto]
      exact ⟨rfl, rfl⟩
    · rw [if_neg hfrom]
      exact ⟨rfl, rfl⟩
  | cons x tl ih =>
    intro g bad rest hgood hbad
    have hx := hgood x (List.mem_cons_self x tl)
    unfold relationEndpointsPresent at hx
    rw [Bool.and_eq_true] at hx
    have step :
        addRelationsGo h now ents g ((x :: tl) ++ bad :: rest)
          = addRelationsGo h now ents (persistRelation h now g x) (tl ++ bad :: rest) := by
      rw [List.cons_append]
      simp only [addRelationsGo]
      rw [if_pos hx.1, if_pos hx.2]
    have ihres := ih (persistRelation h now g x) bad rest
      (fun r hr => hgood r (List.mem_cons_of_mem x hr)) hbad
    rw [step, List.foldl_cons]
    exact ihres

theorem foldl_persistRelation_mem_of_mem (h : String → Nat) (now : String) :
    ∀ (l : List Relation) (s : Store) (pt : Nat × ChunkPayload),
      pt ∈ s → (∀ r ∈ l, relationPointId h r ≠ pt.1) →
      pt ∈ l.foldl (persistRelation h now) s := by
  intro l
  induction l with
  | nil => intro s pt hs _; simpa using hs
  | cons x tl ih =>
    intro s pt hs hne
    rw [List.foldl_cons]
    refine ih _ pt ?_ (fun r hr => hne r (List.mem_cons_of_mem x hr))
    exact mem_upsertPoint_of_ne s _ _ pt hs
      (fun hc => hne x (List.mem_cons_self x tl) hc.symm)

theorem foldl_persistRelation_mem_self (h : String → Nat) (now : String) :
    ∀ (l : List Relation) (s : Store),
      (l.map (relationPointId h)).Nodup →
      ∀ r ∈ l, (relationPointId h r, relationPayload r now) ∈ l.foldl (persistRelation h now) s := by
  intro l
  induction l with
  | nil => intro s _ r hr; exact absurd hr (List.not_mem_nil r)
  | cons x tl ih =>
    intro s hnodup r hr
    rw [List.map_cons, List.nodup_cons] at hnodup
    rw [List.foldl_cons]
    rcases List.mem_cons.mp hr with hrx | hrtl
    · subst hrx
      refine foldl_persistRelation_mem_of_mem h now tl (persistRelation h now s r) _ ?_ ?_
      · unfold persistRelation upsertPoint
        exact List.mem_append_right _ (List.mem_singleton.mpr rfl)
      · intro r' hr' hc
        apply hnodup.1
        have hcc : relationPointId h r' = relationPointId h r := hc
        rw [← hcc]
        exact List.mem_map_of_mem (relationPointId h) hr' 
    · exact ih _ hnodup.2 r hrtl

theorem foldl_persistRelation_subset (h : String → Nat) (now : String) :
    ∀ (l : List Relation) (s : Store) (pt : Nat × ChunkPayload),
      pt ∈ l.foldl (persistRelation h now) s →
      pt ∈ s ∨ ∃ r ∈ l, pt = (relationPointId h r, relationPayload r now) := by
  intro l
  induction l with
  | nil => intro s pt hs; exact Or.inl (by simpa using hs)
  | cons x tl ih =>
    intro s pt hpt
    rw [List.foldl_cons] at hpt
    rcases ih _ pt hpt with hin | ⟨r, hr, hpe⟩
    · unfold persistRelation upsertPoint at hin
      rcases List.mem_append.mp hin with hf | hone
      · exact Or.inl (List.mem_filter.mp hf).1
      · refine Or.inr ⟨x, List.mem_cons_self x tl, ?_⟩
        simpa using hone
    · exact Or.inr ⟨r, List.mem_cons_of_mem x hr, hpe⟩

/-- C5: in a create-relations request, the first relation whose `from` or
`to` endpoint names no existing entity raises a hard error; the relations
before it in the request are already persisted and stay persisted (partial
completion, no rollback), while the failing relation itself is never
written to the store. -/
theorem C5_addRelations_hard_error_partial_completion
    (h : String → Nat) (now : String) (g : Store)
    (good : List Relation) (bad : Relation) (rest : List Relation)
    (hgood : ∀ r ∈ good, relationEndpointsPresent (rawEntities g) r = true)
    (hbad : relationEndpointsPresent (rawEntities g) bad = false)
    (hnodup : (good.map (relationPointId h)).Nodup)
    (hfreshG : ∀ q ∈ g, q.1 ≠ relationPointId h bad)
    (hfreshGood : ∀ r ∈ good, relationPointId h r ≠ relationPointId h bad) :
    (addRelations h now g (good ++ bad :: rest)).1
        = good.foldl (persistRelation h now) g
    ∧ (addRelations h now g (good ++ bad :: rest)).2.isSome = true
    ∧ (∀ r ∈ good,
        (relationPointId h r, relationPayload r now)
          ∈ (addRelations h now g (good ++ bad :: rest)).1)
    ∧ (∀ q ∈ (addRelations h now g (good ++ bad :: rest)).1,
        q.1 ≠ relationPointId h bad) := by
  have hspec := addRelationsGo_spec h now (rawEntities g) good g bad rest hgood hbad
  have heq : (addRelations h now g (good ++ bad :: rest)).1
      = good.foldl (persistRelation h now) g := hspec.1
  refine ⟨heq, hspec.2, ?_, ?_⟩
  · intro r hr
    rw [heq]
    exact foldl_persistRelation_mem_self h now good g hnodup r hr
  · intro q hq
    rw [heq] at hq
    rcases foldl_persistRelation_subset h now good g q hq with hin | ⟨r, hr, hpe⟩
    · exact hfreshG q hin
    · rw [hpe]
      exact hfreshGood r hr

/-- C5 witness: a store holding entities `A`, `B`, `Bc`; the request
persists `A-x-B` and `A-x-Bc`, then fails on `A-x-Qqqq` whose target is
missing; the two good relations are persisted and the bad one is not. -/
theorem C5_addRelations_hard_error_partial_completion_witness :
    (∀ r ∈ [Relation.mk "A" "B" "x", Relation.mk "A" "Bc" "x"],
      relationEndpointsPresent
        (rawEntities [(1, entityPayload (Entity.mk "A" "t" []) "t0"),
                      (2, entityPayload (Entity.mk "B" "t" []) "t0"),
                      (3, entityPayload (Entity.mk "Bc" "t" []) "t0")]) r = true)
    ∧ relationEndpointsPresent
        (rawEntities [(1, entityPayload (Entity.mk "A" "t" []) "t0"),
                      (2, entityPayload (Entity.mk "B" "t" []) "t0"),
                      (3, entityPayload (Entity.mk "Bc" "t" []) "t0")])
        (Relation.mk "A" "Qqqq" "x") = false
    ∧ ((addRelations String.length "t1"
          [(1, entityPayload (Entity.mk "A" "t" []) "t0"),
           (2, entityPayload (Entity.mk "B" "t" []) "t0"),
           (3, entityPayload (Entity.mk "Bc" "t" []) "t0")]
          ([Relation.mk "A" "B" "x", Relation.mk "A" "Bc" "x"]
            ++ Relation.mk "A" "Qqqq" "x" :: [])).1
        = [Relation.mk "A" "B" "x", Relation.mk "A" "Bc" "x"].foldl
            (persistRelation String.length "t1")
            [(1, entityPayload (Entity.mk "A" "t" []) "t0"),
             (2, entityPayload (Entity.mk "B" "t" []) "t0"),
             (3, entityPayload (Entity.mk "Bc" "t" []) "t0")]
      ∧ (addRelations String.length "t1"
          [(1, entityPayload (Entity.mk "A" "t" []) "t0"),
           (2, entityPayload (Entity.mk "B" "t" []) "t0"),
           (3, entityPayload (Entity.mk "Bc" "t" []) "t0")]
          ([Relation.mk "A" "B" "x", Relation.mk "A" "Bc" "x"]
            ++ Relation.mk "A" "Qqqq" "x" :: [])).2.isSome = true) := by
  refine ⟨by decide, by decide, ?_⟩
  have := C5_addRelations_hard_error_partial_completion String.length "t1"
    [(1, entityPayload (Entity.mk "A" "t" []) "t0"),
     (2, entityPayload (Entity.mk "B" "t" []) "t0"),
     (3, entityPayload (Entity.mk "Bc" "t" []) "t0")]
    [Relation.mk "A" "B" "x", Relation.mk "A" "Bc" "x"]
    (Relation.mk "A" "Qqqq" "x") []
    (by decide) (by decide) (by decide) (by decide) (by decide)
  exact ⟨this.1, this.2.1⟩

/-!
Hybrid search fusion.  `performHybridSearch` (src/unnamed/part_000, lines
442-460) calls `HybridSearchFusion.fuseResults(semantic, keyword,
collection, 0.7, 0.3, 60)` and truncates to the requested limit.  The body
of `fuseResults` lives in src/bm25/bm25Service.ts, which is not under
src/, so it is modelled from the spec below.  Scores are JS floats in the
source; they are modelled as rationals.
-/

/-- Modelled from the spec: one accumulation step of
`HybridSearchFusion.fuseResults` (src/bm25/bm25Service.ts, not under src/).
A source's contribution `c` for document `doc` is added to the running
score table, first-seen order preserved. -/
def addContribution (acc : List (String × ℚ)) (doc : String) (c : ℚ) :
    List (String × ℚ) :=
  if acc.any (fun p => p.1 = doc) then
    acc.map (fun p => if p.1 = doc then (p.1, p.2 + c) else p)
  else acc ++ [(doc, c)]

/-- Modelled from the spec: accumulate one ranked source list into the
score table, contributing `w / (K + rank)` at 1-based rank `r`. -/
def accumRanked (w : ℚ) (K : ℕ) : ℕ → List String → List (String × ℚ) → List (String × ℚ)
  | _, [], acc => acc
  | r, d :: ds, acc => accumRanked w K (r + 1) ds (addContribution acc d (w / ((K : ℚ) + r)))

/-- Stable descending insertion: an element is placed after every existing
element with a score not below its own, so ties keep first-encountered
order. -/
def insertDesc (x : String × ℚ) : List (String × ℚ) → List (String × ℚ)
  | [] => [x]
  | y :: ys => if x.2 ≤ y.2 then y :: insertDesc x ys else x :: y :: ys

/-- Stable sort by descending fused score. -/
def sortByScoreDesc : List (String × ℚ) → List (String × ℚ)
  | [] => []
  | x :: xs => insertDesc x (sortByScoreDesc xs)

/-- Modelled from the spec: `HybridSearchFusion.fuseResults`
(src/bm25/bm25Service.ts, not under src/).  Reciprocal Rank Fusion (spec
section 4.3): every document of either ranked list accumulates
`weight / (K + rank)` per source containing it (semantic list first), and
the accumulated table is sorted by descending fused score with documented
tie-breaking. -/
def fuseResults (semantic keyword : List String) (wSem wKey : ℚ) (K : ℕ) :
    List (String × ℚ) :=
  sortByScoreDesc (accumRanked wKey K 1 keyword (accumRanked wSem K 1 semantic []))

/-- `performHybridSearch` (src/unnamed/part_000, lines 442-460): fuse with
semantic weight 0.7, keyword weight 0.3, RRF constant 60, then
`slice(0, limit)`. -/
def performHybridSearch (semantic keyword : List String) (limit : ℕ) :
    List (String × ℚ) :=
  (fuseResults semantic keyword (7/10) (3/10) 60).take limit

/-- The spec formula for one source: `w / (K + rank)` at the document's
1-based rank in the source's ranked list, `0` if absent. -/
def sourceContribution (w : ℚ) (K : ℕ) : ℕ → List String → String → ℚ
  | _, [], _ => 0
  | r, x :: xs, d => if x = d then w / ((K : ℚ) + r) else sourceContribution w K (r + 1) xs d

/-- The spec's fused score: the sum over the sources whose ranked list
contains the document of `weight / (K + rank)`. -/
def rrfScore (semantic keyword : List String) (wSem wKey : ℚ) (K : ℕ) (d : String) : ℚ :=
  sourceContribution wSem K 1 semantic d + sourceContribution wKey K 1 keyword d

/-- Score looked up for a document in a fused score table. -/
def lookupScore (l : List (String × ℚ)) (d : String) : Option ℚ :=
  (l.find? (fun p => p.1 = d)).map (fun p => p.2)

theorem sourceContribution_not_mem (w : ℚ) (K : ℕ) :
    ∀ (ds : List String) (r : ℕ) (d : String), d ∉ ds →
      sourceContribution w K r ds d = 0 := by
  intro ds
  induction ds with
  | nil => intro r d _; rfl
  | cons x tl ih =>
    intro r d hd
    unfold sourceContribution
    rw [if_neg (fun hc => hd (by rw [← hc]; exact List.mem_cons_self x tl))]
    exact ih (r + 1) d (fun hc => hd (List.mem_cons_of_mem x hc))

theorem lookupScore_addContribution_self (acc : List (String × ℚ)) (d : String) (c : ℚ) :
    lookupScore (addContribution acc d c) d
      = some ((lookupScore acc d).getD 0 + c) := by
  unfold addContribution
  by_cases hany : (acc.any fun p => p.1 = d) = true
  · rw [if_pos hany]
    induction acc with
    | nil => simp at hany
    | cons p tl ih =>
      by_cases hp : p.1 = d
      · unfold lookupScore
        rw [List.map_cons, if_pos hp, List.find?_cons_of_pos _ (by simpa using hp),
          List.find?_cons_of_pos _ (by simpa using hp)]
        simp
      · have htl : (tl.any fun p => p.1 = d) = true := by
          rw [List.any_cons] at hany
          rcases Bool.or_eq_true_iff.mp hany with hh | ht
          · exact absurd (of_decide_eq_true hh) hp
          · exact ht
        unfold lookupScore at ih ⊢
        rw [List.map_cons, if_neg hp, List.find?_cons_of_neg _ (by simpa using hp),
          List.find?_cons_of_neg _ (by simpa using hp)]
        exact ih htl
  · rw [if_neg hany]
    have hno : ∀ p ∈ acc, ¬ (p.1 = d) := by
      intro p hp hc
      exact hany (List.any_eq_true.mpr ⟨p, hp, by simpa using hc⟩)
    have hfind : acc.find? (fun p => p.1 = d) = none :=
      List.find?_eq_none.mpr (fun p hp => by simpa using hno p hp)
    unfold lookupScore
    rw [List.find?_append, hfind]
    simp

theorem lookupScore_map_update (d d' : String) (c : ℚ) (hne : d' ≠ d) :
    ∀ (tl : List (String × ℚ)),
      lookupScore (tl.map (fun p => if p.1 = d then (p.1, p.2 + c) else p)) d'
        = lookupScore tl d' := by
  intro tl
  induction tl with
  | nil => rfl
  | cons p tl ih =>
    unfold lookupScore at ih ⊢
    by_cases hp : p.1 = d
    · have hp' : ¬ (p.1 = d') := fun hc => hne (by rw [← hc]; exact hp)
      rw [List.map_cons, if_pos hp]
      rw [List.find?_cons_of_neg _ (by simpa using hp')]
      rw [List.find?_cons_of_neg _ (by simpa using hp')]
      exact ih
    · by_cases hp' : p.1 = d'
      · rw [List.map_cons, if_neg hp]
        rw [List.find?_cons_of_pos _ (by simpa using hp')]
        rw [List.find?_cons_of_pos _ (by simpa using hp')]
      · rw [List.map_cons, if_neg hp]
        rw [List.find?_cons_of_neg _ (by simpa using hp')]
        rw [List.find?_cons_of_neg _ (by simpa using hp')]
        exact ih

theorem lookupScore_addContribution_ne (acc : List (String × ℚ)) (d d' : String) (c : ℚ)
    (hne : d' ≠ d) :
    lookupScore (addContribution acc d c) d' = lookupScore acc d' := by
  unfold addContribution
  by_cases hany : (acc.any fun p => p.1 = d) = true
  · rw [if_pos hany]
    exact lookupScore_map_update d d' c hne acc
  · rw [if_neg hany]
    unfold lookupScore
    rw [List.find?_append]
    have hone : List.find? (fun p => p.1 = d') [(d, c)] = none := by
      simp [hne.symm]
    cases hf : acc.find? (fun p => p.1 = d') <;> simp [hf, hone]

theorem lookupScore_accumRanked_not_mem (w : ℚ) (K : ℕ) :
    ∀ (ds : List String) (r : ℕ) (acc : List (String × ℚ)) (d : String), d ∉ ds →
      lookupScore (accumRanked w K r ds acc) d = lookupScore acc d := by
  intro ds
  induction ds with
  | nil => intro r acc d _; rfl
  | cons x tl ih =>
    intro r acc d hd
    unfold accumRanked
    rw [ih (r + 1) _ d (fun hc => hd (List.mem_cons_of_mem x hc))]
    exact lookupScore_addContribution_ne acc x d _
      (fun hc => hd (by rw [hc]; exact List.mem_cons_self x tl))

theorem lookupScore_accumRanked_mem (w : ℚ) (K : ℕ) :
    ∀ (ds : List String) (r : ℕ) (acc : List (String × ℚ)) (d : String),
      ds.Nodup → d ∈ ds →
      lookupScore (accumRanked w K r ds acc) d
        = some ((lookupScore acc d).getD 0 + sourceContribution w K r ds d) := by
  intro ds
  induction ds with
  | nil => intro r acc d _ hd; exact absurd hd (List.not_mem_nil d)
  | cons x tl ih =>
    intro r acc d hnd hd
    rw [List.nodup_cons] at hnd
    unfold accumRanked sourceContribution
    by_cases hx : x = d
    · subst hx
      rw [if_pos rfl]
      rw [lookupScore_accumRanked_not_mem w K tl (r + 1) _ x hnd.1]
      exact lookupScore_addContribution_self acc x _
    · rw [if_neg hx]
      have hdtl : d ∈ tl := by
        rcases List.mem_cons.mp hd with hc | hc
        · exact absurd hc.symm hx
        · exact hc
      rw [ih (r + 1) _ d hnd.2 hdtl]
      rw [lookupScore_addContribution_ne acc x d _ (fun hc => hx hc.symm)]

/-- Keys of a score table. -/
def tableKeys (l : List (String × ℚ)) : List String := l.map Prod.fst

theorem tableKeys_addContribution (acc : List (String × ℚ)) (d : String) (c : ℚ) :
    tableKeys (addContribution acc d c) = tableKeys acc
      ∨ tableKeys (addContribution acc d c) = tableKeys acc ++ [d] := by
  unfold addContribution
  by_cases hany : (acc.any fun p => p.1 = d) = true
  · rw [if_pos hany]
    left
    unfold tableKeys
    rw [List.map_map]
    apply List.map_congr_left
    intro p _
    by_cases hp : p.1 = d <;> simp [hp]
  · rw [if_neg hany]
    right
    unfold tableKeys
    simp

theorem nodup_tableKeys_addContribution (acc : List (String × ℚ)) (d : String) (c : ℚ)
    (hnd : (tableKeys acc).Nodup) :
    (tableKeys (addContribution acc d c)).Nodup := by
  unfold addContribution
  by_cases hany : (acc.any fun p => p.1 = d) = true
  · rw [if_pos hany]
    have : tableKeys (acc.map (fun p => if p.1 = d then (p.1, p.2 + c) else p))
        = tableKeys acc := by
      unfold tableKeys
      rw [List.map_map]
      apply List.map_congr_left
      intro p _
      by_cases hp : p.1 = d <;> simp [hp]
    rw [this]
    exact hnd
  · rw [if_neg hany]
    unfold tableKeys
    rw [List.map_append]
    have hdnot : d ∉ acc.map Prod.fst := by
      intro hmem
      rcases List.mem_map.mp hmem with ⟨p, hp, hpd⟩
      exact hany (List.any_eq_true.mpr ⟨p, hp, by simpa using hpd⟩)
    simp only [List.map_cons, List.map_nil]
    rw [List.nodup_append]
    exact ⟨hnd, List.nodup_singleton d, by simpa using hdnot⟩

theorem nodup_tableKeys_accumRanked (w : ℚ) (K : ℕ) :
    ∀ (ds : List String) (r : ℕ) (acc : List (String × ℚ)),
      (tableKeys acc).Nodup → (tableKeys (accumRanked w K r ds acc)).Nodup := by
  intro ds
  induction ds with
  | nil => intro r acc h; exact h
  | cons x tl ih =>
    intro r acc h
    unfold accumRanked
    exact ih (r + 1) _ (nodup_tableKeys_addContribution acc x _ h)

theorem insertDesc_perm (x : String × ℚ) :
    ∀ (l : List (String × ℚ)), (insertDesc x l).Perm (x :: l) := by
  intro l
  induction l with
  | nil => exact List.Perm.refl _
  | cons y ys ih =>
    unfold insertDesc
    by_cases hc : x.2 ≤ y.2
    · rw [if_pos hc]
      exact (ih.cons y).trans (List.Perm.swap x y ys)
    · rw [if_neg hc]

theorem sortByScoreDesc_perm :
    ∀ (l : List (String × ℚ)), (sortByScoreDesc l).Perm l := by
  intro l
  induction l with
  | nil => exact List.Perm.refl _
  | cons x xs ih =>
    unfold sortByScoreDesc
    exact (insertDesc_perm x (sortByScoreDesc xs)).trans (ih.cons x)

theorem insertDesc_sorted (x : String × ℚ) :
    ∀ (l : List (String × ℚ)),
      List.Sorted (fun a b : String × ℚ => b.2 ≤ a.2) l →
      List.Sorted (fun a b : String × ℚ => b.2 ≤ a.2) (insertDesc x l) := by
  intro l
  induction l with
  | nil => intro _; simp [insertDesc]
  | cons y ys ih =>
    intro hs
    rw [List.sorted_cons] at hs
    unfold insertDesc
    by_cases hc : x.2 ≤ y.2
    · rw [if_pos hc]
      rw [List.sorted_cons]
      refine ⟨?_, ih hs.2⟩
      intro b hb
      have hbmem : b ∈ x :: ys := (insertDesc_perm x ys).mem_iff.mp hb
      rcases List.mem_cons.mp hbmem with hbx | hbys
      · rw [hbx]; exact hc
      · exact hs.1 b hbys
    · rw [if_neg hc]
      rw [List.sorted_cons]
      refine ⟨?_, List.sorted_cons.mpr hs⟩
      intro b hb
      rcases List.mem_cons.mp hb with hby | hbys
      · rw [hby]; exact le_of_lt (lt_of_not_le hc)
      · exact le_trans (hs.1 b hbys) (le_of_lt (lt_of_not_le hc))

theorem sortByScoreDesc_sorted :
    ∀ (l : List (String × ℚ)),
      List.Sorted (fun a b : String × ℚ => b.2 ≤ a.2) (sortByScoreDesc l) := by
  intro l
  induction l with
  | nil => simp [sortByScoreDesc]
  | cons x xs ih =>
    unfold sortByScoreDesc
    exact insertDesc_sorted x _ ih

theorem lookupScore_unique (d : String) (s s' : ℚ) :
    ∀ (l : List (String × ℚ)), (tableKeys l).Nodup →
      (d, s) ∈ l → (d, s') ∈ l → s = s' := by
  intro l
  induction l with
  | nil => intro _ h _; exact absurd h (List.not_mem_nil _)
  | cons p tl ih =>
    intro hnd h1 h2
    unfold tableKeys at hnd
    rw [List.map_cons, List.nodup_cons] at hnd
    rcases List.mem_cons.mp h1 with he1 | ht1 <;>
      rcases List.mem_cons.mp h2 with he2 | ht2
    · injection he1.trans he2.symm
    · exfalso
      apply hnd.1
      rw [← he1]
      exact List.mem_map.mpr ⟨(d, s'), ht2, rfl⟩
    · exfalso
      apply hnd.1
      rw [← he2]
      exact List.mem_map.mpr ⟨(d, s), ht1, rfl⟩
    · exact ih hnd.2 ht1 ht2

theorem lookupScore_mem (l : List (String × ℚ)) (d : String) (s : ℚ)
    (h : lookupScore l d = some s) : (d, s) ∈ l := by
  unfold lookupScore at h
  cases hf : l.find? (fun p => p.1 = d) with
  | none => rw [hf] at h; exact absurd h (by simp)
  | some p =>
    rw [hf] at h
    have hp1 : p.1 = d := by simpa using List.find?_some hf
    have hp2 : p.2 = s := by simpa using h
    have : p ∈ l := List.mem_of_find?_eq_some hf
    rw [← hp1, ← hp2]
    exact this

theorem lookupScore_eq_none_iff (l : List (String × ℚ)) (d : String) :
    lookupScore l d = none ↔ ∀ s, (d, s) ∉ l := by
  unfold lookupScore
  constructor
  · intro h s hmem
    rw [Option.map_eq_none'] at h
    have := List.find?_eq_none.mp h (d, s) hmem
    simp at this
  · intro h
    rw [Option.map_eq_none']
    apply List.find?_eq_none.mpr
    intro p hp
    simp only [decide_eq_true_eq]
    intro hpd
    exact h p.2 (by rw [← hpd]; exact hp)

theorem lookupScore_of_mem_nodup (l : List (String × ℚ)) (d : String) (s : ℚ)
    (hnd : (tableKeys l).Nodup) (hmem : (d, s) ∈ l) :
    lookupScore l d = some s := by
  cases hl : lookupScore l d with
  | none => exact absurd hmem ((lookupScore_eq_none_iff l d).mp hl s)
  | some s' =>
    have := lookupScore_unique d s' s l hnd (lookupScore_mem l d s' hl) hmem
    rw [this]

theorem lookupScore_perm (l l' : List (String × ℚ)) (d : String)
    (hperm : l.Perm l') (hnd : (tableKeys l).Nodup) :
    lookupScore l d = lookupScore l' d := by
  have hnd' : (tableKeys l').Nodup := by
    unfold tableKeys at hnd ⊢
    exact (hperm.map Prod.fst).nodup_iff.mp hnd
  cases hl : lookupScore l d with
  | none =>
    cases hl' : lookupScore l' d with
    | none => rfl
    | some s =>
      have := lookupScore_mem l' d s hl'
      exact absurd (hperm.mem_iff.mpr this) ((lookupScore_eq_none_iff l d).mp hl s)
  | some s =>
    have hmem' : (d, s) ∈ l' := hperm.mem_iff.mp (lookupScore_mem l d s hl)
    exact (lookupScore_of_mem_nodup l' d s hnd' hmem').symm

theorem lookupScore_fuseResults (sem kw : List String) (wS wK : ℚ) (K : ℕ)
    (hs : sem.Nodup) (hk : kw.Nodup) (d : String) :
    lookupScore (fuseResults sem kw wS wK K) d
      = if d ∈ sem ∨ d ∈ kw then some (rrfScore sem kw wS wK K d) else none := by
  have hnd1 : (tableKeys (accumRanked wS K 1 sem [])).Nodup :=
    nodup_tableKeys_accumRanked wS K sem 1 [] (by simp [tableKeys])
  have hnd2 : (tableKeys (accumRanked wK K 1 kw (accumRanked wS K 1 sem []))).Nodup :=
    nodup_tableKeys_accumRanked wK K kw 1 _ hnd1
  have hlk : lookupScore (fuseResults sem kw wS wK K) d
      = lookupScore (accumRanked wK K 1 kw (accumRanked wS K 1 sem [])) d := by
    unfold fuseResults
    exact (lookupScore_perm _ _ d (sortByScoreDesc_perm _).symm hnd2).symm
  rw [hlk]
  by_cases hdk : d ∈ kw
  · rw [lookupScore_accumRanked_mem wK K kw 1 _ d hk hdk]
    by_cases hds : d ∈ sem
    · rw [lookupScore_accumRanked_mem wS K sem 1 [] d hs hds]
      rw [if_pos (Or.inr hdk)]
      unfold rrfScore
      have hnil : lookupScore [] d = none := rfl
      rw [hnil]
      simp
    · rw [lookupScore_accumRanked_not_mem wS K sem 1 [] d hds]
      rw [if_pos (Or.inr hdk)]
      unfold rrfScore
      rw [sourceContribution_not_mem wS K sem 1 d hds]
      have hnil : lookupScore [] d = none := rfl
      rw [hnil]
      simp
  · rw [lookupScore_accumRanked_not_mem wK K kw 1 _ d hdk]
    by_cases hds : d ∈ sem
    · rw [lookupScore_accumRanked_mem wS K sem 1 [] d hs hds]
      rw [if_pos (Or.inl hds)]
      unfold rrfScore
      rw [sourceContribution_not_mem wK K kw 1 d hdk]
      have hnil : lookupScore [] d = none := rfl
      rw [hnil]
      simp
    · rw [lookupScore_accumRanked_not_mem wS K sem 1 [] d hds]
      rw [if_neg (by tauto)]
      rfl

/-- C2: in a hybrid search, the fused score of every returned document is
the Reciprocal Rank Fusion sum `Σ weight/(K + rank)` over the sources whose
ranked list contains it, with K = 60, semantic weight 0.7, keyword weight
0.3 and 1-based ranks (absent sources contribute 0); the output is sorted
by descending fused score and truncated to the requested limit. -/
theorem C2_hybrid_rrf_scores_sorted_truncated (sem kw : List String) (limit : ℕ)
    (hs : sem.Nodup) (hk : kw.Nodup) :
    (∀ d s, (d, s) ∈ performHybridSearch sem kw limit →
        s = rrfScore sem kw (7/10) (3/10) 60 d)
    ∧ List.Sorted (fun a b : String × ℚ => b.2 ≤ a.2) (performHybridSearch sem kw limit)
    ∧ performHybridSearch sem kw limit
        = (fuseResults sem kw (7/10) (3/10) 60).take limit
    ∧ (performHybridSearch sem kw limit).length ≤ limit := by
  have hnd1 : (tableKeys (accumRanked (7/10) 60 1 sem [])).Nodup :=
    nodup_tableKeys_accumRanked _ 60 sem 1 [] (by simp [tableKeys])
  have hnd2 : (tableKeys (accumRanked (3/10) 60 1 kw (accumRanked (7/10) 60 1 sem []))).Nodup :=
    nodup_tableKeys_accumRanked _ 60 kw 1 _ hnd1
  have hndf : (tableKeys (fuseResults sem kw (7/10) (3/10) 60)).Nodup := by
    unfold fuseResults tableKeys
    exact ((sortByScoreDesc_perm _).map Prod.fst).nodup_iff.mpr hnd2
  refine ⟨?_, ?_, rfl, ?_⟩
  · intro d s hmem
    have hmemf : (d, s) ∈ fuseResults sem kw (7/10) (3/10) 60 :=
      List.take_subset limit _ hmem
    have h1 : lookupScore (fuseResults sem kw (7/10) (3/10) 60) d = some s :=
      lookupScore_of_mem_nodup _ d s hndf hmemf
    rw [lookupScore_fuseResults sem kw (7/10) (3/10) 60 hs hk d] at h1
    by_cases hcond : d ∈ sem ∨ d ∈ kw
    · rw [if_pos hcond] at h1
      exact (Option.some.inj h1).symm
    · rw [if_neg hcond] at h1
      exact absurd h1 (by simp)
  · have hsorted : List.Sorted (fun a b : String × ℚ => b.2 ≤ a.2)
        (fuseResults sem kw (7/10) (3/10) 60) := by
      unfold fuseResults
      exact sortByScoreDesc_sorted _
    exact List.Pairwise.sublist (List.take_sublist limit _) hsorted
  · exact List.length_take_le limit _

/-- C2 witness: semantic ranks `[D1, D2, D3]`, keyword ranks `[D3, D1]`,
K = 60, weights 0.7/0.3.  With 1-based ranks in both lists the fused scores
are D1 = 0.7/61 + 0.3/62, D3 = 0.7/63 + 0.3/61, D2 = 0.7/62, and the
output order is `[D1, D3, D2]`. -/
theorem C2_hybrid_rrf_scores_sorted_truncated_witness :
    (["D1", "D2", "D3"] : List String).Nodup
    ∧ (["D3", "D1"] : List String).Nodup
    ∧ (∀ d s, (d, s) ∈ performHybridSearch ["D1", "D2", "D3"] ["D3", "D1"] 10 →
        s = rrfScore ["D1", "D2", "D3"] ["D3", "D1"] (7/10) (3/10) 60 d)
    ∧ List.Sorted (fun a b : String × ℚ => b.2 ≤ a.2)
        (performHybridSearch ["D1", "D2", "D3"] ["D3", "D1"] 10)
    ∧ performHybridSearch ["D1", "D2", "D3"] ["D3", "D1"] 10
        = [("D1", 7/10/61 + 3/10/62), ("D3", 7/10/63 + 3/10/61), ("D2", 7/10/62)] := by
  have hthm := C2_hybrid_rrf_scores_sorted_truncated ["D1", "D2", "D3"] ["D3", "D1"] 10
    (by decide) (by decide)
  refine ⟨by decide, by decide, hthm.1, hthm.2.1, ?_⟩
  simp [performHybridSearch, fuseResults, accumRanked, addContribution,
    sortByScoreDesc, insertDesc]
  norm_num [insertDesc]

/-- C2 counterexample: the claim's concrete example asserts D1 scores
0.7/61 + 0.3/61 and D3 scores 0.7/63 + 0.3/60, but with the claim's own
1-based ranks the keyword list `[D3, D1]` gives D3 rank 1 (0.3/61) and D1
rank 2 (0.3/62), so the fused scores differ from the example's numbers. -/
theorem C2_hybrid_rrf_example_counterexample :
    performHybridSearch ["D1", "D2", "D3"] ["D3", "D1"] 10
      = [("D1", 7/10/61 + 3/10/62), ("D3", 7/10/63 + 3/10/61), ("D2", 7/10/62)]
    ∧ (7/10/61 + 3/10/62 : ℚ) ≠ 7/10/61 + 3/10/61
    ∧ (7/10/63 + 3/10/61 : ℚ) ≠ 7/10/63 + 3/10/60 := by
  refine ⟨?_, by norm_num, by norm_num⟩
  simp [performHybridSearch, fuseResults, accumRanked, addContribution,
    sortByScoreDesc, insertDesc]
  norm_num [insertDesc]

/-!
Search dispatch chain: `QdrantPersistence.searchSimilar` (src/unnamed/
part_000, lines 388-409), `KnowledgeGraphManager.searchSimilar`
(src/src/index.ts, lines 151-155) and the `search_similar` tool handler
(src/src/index.ts, lines 512-527) with `validateSearchSimilarRequest`
(src/src/validation.ts, lines 180-208).

The external vector-similarity query (`performSemanticSearch`, an
embedding call plus a Qdrant search) is modelled as an oracle
`semanticSearch` returning scored document ids or an error.  The BM25
rebuild scan (`scroll` below) may also fail.  JS numbers for limits are
modelled as rationals; `Array.slice`'s truncation of a fractional limit is
`natLimit`.
-/

/-- Search mode of `searchSimilar`. -/
inductive SearchMode
  | semantic
  | keyword
  | hybrid
deriving Repr, DecidableEq

/-- BM25 document built by the index rebuild (src/unnamed/part_000, lines
619-629): id is the chunk's `entity_name`; the indexed text is the entity
name concatenated with the stored content (so name-only queries match),
modelled as the token list `[entity_name, content]`. -/
structure BMDoc where
  id : String
  text : List String
deriving Repr, DecidableEq

/-- The rebuild of the keyword index from a full scan of the store's
metadata chunks (`initializeBM25Index`, src/unnamed/part_000, lines
572-639): scroll all chunks with `type = "chunk"` and
`chunk_type = "metadata"` and index the entity name together with the
chunk content. -/
def rebuildBM25Index (store : List ChunkPayload) : List BMDoc :=
  (store.filter (fun p => p.type = "chunk" ∧ p.chunk_type = "metadata")).map
    (fun p => { id := p.entity_name, text := [p.entity_name, p.content] })

/-- `initializeBM25Index` clears the in-memory index before its try block;
a scan failure is caught and logged, leaving the index empty. -/
def rebuildBM25IndexE (scroll : Except String (List ChunkPayload)) : List BMDoc :=
  match scroll with
  | .ok pts => rebuildBM25Index pts
  | .error _ => []

/-- Modelled from the spec: `BM25Service.search`
(src/bm25/bm25Service.ts, not under src/).  A ranked-retrieval query over
the in-memory document set; the TF/IDF scoring constants are irrelevant to
the claims settled here, which depend only on which document set is
searched, so the model returns the ids of the indexed documents whose text
contains the query term, in index order, truncated to the limit. -/
def bm25Search (docs : List BMDoc) (q : String) (limit : Nat) : List String :=
  ((docs.filter (fun d => d.text.contains q)).map (fun d => d.id)).take limit

/-- JS `Array.slice(0, limit)` / search-limit truncation for a
(possibly fractional) numeric limit. -/
def natLimit (l : ℚ) : Nat := (Int.floor l).toNat

/-- The persistence layer's collaborators for one search:
the semantic-search oracle (embedding + vector query, external), the
current in-memory BM25 index state, and the outcome of a metadata scroll
used by a rebuild. -/
structure QdrantEnv where
  semanticSearch : String → Option (List String) → ℚ → Except String (List (String × ℚ))
  bm25State : List BMDoc
  scroll : Except String (List ChunkPayload)

/-- `QdrantPersistence.searchSimilar` (src/unnamed/part_000, lines
388-409): dispatch on the search mode inside a try/catch that degrades any
query-time failure to an empty result list.
* semantic: the vector-similarity query;
* keyword: rebuild the BM25 index from a full scan, then query it
  (`performKeywordSearch`, lines 430-440; keyword scores modelled as 1);
* hybrid: the vector query and a BM25 query against the **current**
  in-memory index (no rebuild), fused by RRF and truncated
  (`performHybridSearch`, lines 442-460). -/
def qdrantSearchSimilar (env : QdrantEnv) (q : String) (types : Option (List String))
    (limit : ℚ) (mode : SearchMode) : List (String × ℚ) :=
  match mode with
  | .semantic =>
    match env.semanticSearch q types limit with
    | .ok r => r
    | .error _ => []
  | .keyword =>
    (bm25Search (rebuildBM25IndexE env.scroll) q (natLimit limit)).map (fun d => (d, (1 : ℚ)))
  | .hybrid =>
    match env.semanticSearch q types limit with
    | .ok sem =>
      performHybridSearch (sem.map (fun p => p.1))
        (bm25Search env.bm25State q (natLimit limit)) (natLimit limit)
    | .error _ => []

/-- `KnowledgeGraphManager.searchSimilar` (src/src/index.ts, lines
151-155): default limit 50, clamp to `max(1, min(limit, 100))`, and call
`qdrant.searchSimilar(query, entityTypes, validLimit)` — the search mode is
not passed, so the persistence layer's default mode `semantic` applies. -/
def managerSearchSimilar (env : QdrantEnv) (q : String) (types : Option (List String))
    (limit : Option ℚ) : List (String × ℚ) :=
  qdrantSearchSimilar env q types (max 1 (min (limit.getD 50) 100)) SearchMode.semantic

set_option linter.unusedVariables false in
/-- The `search_similar` tool handler (src/src/index.ts, lines 512-527)
after `validateSearchSimilarRequest` (src/src/validation.ts, lines
180-208): a present non-positive limit is rejected; the validated
`searchMode` is not forwarded to the manager. -/
def handleSearchSimilar (env : QdrantEnv) (q : String) (types : Option (List String))
    (limit : Option ℚ) (searchMode : Option SearchMode) :
    Except String (List (String × ℚ)) :=
  match limit with
  | some l =>
    if l ≤ 0 then .error "Invalid limit value"
    else .ok (managerSearchSimilar env q types (some l))
  | none => .ok (managerSearchSimilar env q types none)

/-- `KnowledgeGraphManager.getGraph` (src/src/index.ts, lines 126-134):
a failing `scrollAll` is caught and degraded to the empty graph. -/
def getGraph (scrollAllResult : Except String (List Entity × List Relation)) :
    List Entity × List Relation :=
  match scrollAllResult with
  | .ok g => g
  | .error _ => ([], [])

/-- `KnowledgeGraphManager.getRawGraph` (src/src/index.ts, lines 136-149):
same catch-to-empty behaviour for the raw scroll. -/
def getRawGraph (scrollAllResult : Except String (List Entity × List Relation)) :
    List Entity × List Relation :=
  match scrollAllResult with
  | .ok g => g
  | .error _ => ([], [])

/-- A store with one metadata chunk for entity `alpha`, used to separate
keyword results from semantic results in concrete runs. -/
def alphaStore : List ChunkPayload :=
  [entityPayload (Entity.mk "alpha" "function" ["alphadoc"]) "t0"]

/-- Environment whose semantic oracle finds nothing, whose in-memory BM25
index is stale (empty), and whose store scan yields the `alpha` chunk. -/
def staleEnv : QdrantEnv :=
  { semanticSearch := fun _ _ _ => .ok []
    bm25State := []
    scroll := .ok alphaStore }

/-- Same environment after a fresh rebuild of the BM25 index. -/
def freshEnv : QdrantEnv :=
  { semanticSearch := fun _ _ _ => .ok []
    bm25State := rebuildBM25Index alphaStore
    scroll := .ok alphaStore }

theorem natLimit_fifty : natLimit 50 = 50 := by
  unfold natLimit
  simp

/-- C3: the caller-facing search chain ignores the requested mode.  The
handler and `KnowledgeGraphManager.searchSimilar` never forward the
validated `searchMode`, so a request with mode `keyword` performs semantic
retrieval: on a store whose keyword index matches `alpha` while the
semantic oracle returns nothing, the handler answers with the (empty)
semantic result instead of the non-empty keyword result that
`QdrantPersistence.searchSimilar` would produce for mode `keyword`. -/
theorem C3_search_mode_ignored_by_handler :
    (∀ m : SearchMode, handleSearchSimilar staleEnv "alpha" none none (some m)
        = handleSearchSimilar staleEnv "alpha" none none (some SearchMode.semantic))
    ∧ handleSearchSimilar staleEnv "alpha" none none (some SearchMode.keyword)
        = .ok []
    ∧ qdrantSearchSimilar staleEnv "alpha" none 50 SearchMode.keyword
        = [("alpha", 1)]
    ∧ (.ok [] : Except String (List (String × ℚ))) ≠ .ok [("alpha", 1)] := by
  refine ⟨fun m => rfl, rfl, ?_, by simp⟩
  show (bm25Search (rebuildBM25IndexE staleEnv.scroll) "alpha" (natLimit 50)).map
      (fun d => (d, (1 : ℚ))) = [("alpha", 1)]
  rw [natLimit_fifty]
  rw [show bm25Search (rebuildBM25IndexE staleEnv.scroll) "alpha" 50 = ["alpha"] by decide]
  rfl

/-- C4: a backing-store failure at query time is caught and degraded to an
empty result in every read path: semantic search, hybrid search (whose
semantic half fails), keyword search (whose rebuild scan fails and leaves
an empty index), and the graph reads `getGraph` / `getRawGraph`; the
failure is never propagated. -/
theorem C4_read_failures_degrade_to_empty
    (env : QdrantEnv) (q : String) (types : Option (List String)) (limit : ℚ)
    (e : String)
    (hsem : env.semanticSearch q types limit = .error e)
    (hscroll : env.scroll = .error e) :
    qdrantSearchSimilar env q types limit SearchMode.semantic = []
    ∧ qdrantSearchSimilar env q types limit SearchMode.hybrid = []
    ∧ qdrantSearchSimilar env q types limit SearchMode.keyword = []
    ∧ (∀ err : String, getGraph (.error err) = ([], []))
    ∧ (∀ err : String, getRawGraph (.error err) = ([], [])) := by
  refine ⟨?_, ?_, ?_, fun _ => rfl, fun _ => rfl⟩
  · unfold qdrantSearchSimilar
    rw [hsem]
  · unfold qdrantSearchSimilar
    rw [hsem]
  · unfold qdrantSearchSimilar
    rw [hscroll]
    show (bm25Search (rebuildBM25IndexE (.error e)) q (natLimit limit)).map
        (fun d => (d, (1 : ℚ))) = []
    rw [show rebuildBM25IndexE (Except.error e : Except String (List ChunkPayload)) = []
      from rfl]
    rw [show ∀ n, bm25Search [] q n = [] from fun n => by simp [bm25Search]]
    rfl

/-- Environment whose reads all fail. -/
def failingEnv : QdrantEnv :=
  { semanticSearch := fun _ _ _ => .error "boom"
    bm25State := []
    scroll := .error "boom" }

/-- C4 witness: with every backing read failing, each search mode returns
the empty list and graph reads return the empty graph. -/
theorem C4_read_failures_degrade_to_empty_witness :
    failingEnv.semanticSearch "q" none 20 = .error "boom"
    ∧ failingEnv.scroll = .error "boom"
    ∧ qdrantSearchSimilar failingEnv "q" none 20 SearchMode.semantic = []
    ∧ qdrantSearchSimilar failingEnv "q" none 20 SearchMode.hybrid = []
    ∧ qdrantSearchSimilar failingEnv "q" none 20 SearchMode.keyword = []
    ∧ getGraph (.error "boom") = ([], [])
    ∧ getRawGraph (.error "boom") = ([], []) := by
  have hthm := C4_read_failures_degrade_to_empty failingEnv "q" none 20 "boom" rfl rfl
  exact ⟨rfl, rfl, hthm.1, hthm.2.1, hthm.2.2.1, hthm.2.2.2.1 "boom", hthm.2.2.2.2 "boom"⟩

/-- C9 (amended): before every keyword-mode query the BM25 index is
rebuilt from a full scan of the store's metadata chunks, so the keyword
result depends only on the store snapshot and not on the in-memory index
state; the keyword half of a hybrid query, however, searches the current
in-memory index without rebuilding it. -/
theorem C9_keyword_rebuilds_hybrid_uses_stale_index
    (env env' : QdrantEnv) (q : String) (types : Option (List String)) (limit : ℚ)
    (sem : List (String × ℚ))
    (hscroll : env.scroll = env'.scroll)
    (hsem : env.semanticSearch q types limit = .ok sem) :
    qdrantSearchSimilar env q types limit SearchMode.keyword
        = qdrantSearchSimilar env' q types limit SearchMode.keyword
    ∧ qdrantSearchSimilar env q types limit SearchMode.keyword
        = (bm25Search (rebuildBM25IndexE env.scroll) q (natLimit limit)).map
            (fun d => (d, (1 : ℚ)))
    ∧ qdrantSearchSimilar env q types limit SearchMode.hybrid
        = performHybridSearch (sem.map (fun p => p.1))
            (bm25Search env.bm25State q (natLimit limit)) (natLimit limit) := by
  refine ⟨?_, rfl, ?_⟩
  · unfold qdrantSearchSimilar
    rw [hscroll]
  · unfold qdrantSearchSimilar
    rw [hsem]

/-- C9 witness: for the stale and freshly-rebuilt environments over the
same store snapshot, keyword-mode results coincide and each hybrid query
fuses against its own in-memory index. -/
theorem C9_keyword_rebuilds_hybrid_uses_stale_index_witness :
    staleEnv.scroll = freshEnv.scroll
    ∧ staleEnv.semanticSearch "alpha" none 50 = .ok []
    ∧ qdrantSearchSimilar staleEnv "alpha" none 50 SearchMode.keyword
        = qdrantSearchSimilar freshEnv "alpha" none 50 SearchMode.keyword
    ∧ qdrantSearchSimilar staleEnv "alpha" none 50 SearchMode.hybrid
        = performHybridSearch ([].map (fun p : String × ℚ => p.1))
            (bm25Search staleEnv.bm25State "alpha" (natLimit 50)) (natLimit 50) := by
  have hthm := C9_keyword_rebuilds_hybrid_uses_stale_index staleEnv freshEnv
    "alpha" none 50 [] rfl rfl
  exact ⟨rfl, rfl, hthm.1, hthm.2.2⟩

/-- C9 counterexample: for a fixed store snapshot (one metadata chunk for
`alpha`), a hybrid query against the stale (empty) in-memory index returns
nothing, while the same hybrid query after a fresh rebuild returns the
`alpha` document — so a hybrid query is not equivalent to one over a
freshly rebuilt index, refuting the claim's "including the keyword half of
every hybrid query" / snapshot-equivalence statement. -/
theorem C9_hybrid_not_rebuilt_counterexample :
    staleEnv.scroll = freshEnv.scroll
    ∧ qdrantSearchSimilar staleEnv "alpha" none 50 SearchMode.hybrid = []
    ∧ qdrantSearchSimilar freshEnv "alpha" none 50 SearchMode.hybrid
        = [("alpha", 3/10/61)]
    ∧ qdrantSearchSimilar staleEnv "alpha" none 50 SearchMode.hybrid
        ≠ qdrantSearchSimilar freshEnv "alpha" none 50 SearchMode.hybrid := by
  have h1 : qdrantSearchSimilar staleEnv "alpha" none 50 SearchMode.hybrid = [] := by
    show performHybridSearch _ _ _ = []
    rw [natLimit_fifty]
    simp [staleEnv, bm25Search, performHybridSearch, fuseResults, accumRanked,
      sortByScoreDesc]
  have h2 : qdrantSearchSimilar freshEnv "alpha" none 50 SearchMode.hybrid
      = [("alpha", 3/10/61)] := by
    show performHybridSearch (List.map (fun p : String × ℚ => p.1) ([] : List (String × ℚ)))
        (bm25Search freshEnv.bm25State "alpha" (natLimit 50)) (natLimit 50) = _
    rw [natLimit_fifty]
    rw [show bm25Search freshEnv.bm25State "alpha" 50 = ["alpha"] by decide]
    simp [performHybridSearch, fuseResults, accumRanked, addContribution,
      sortByScoreDesc, insertDesc]
    norm_num
  refine ⟨rfl, h1, h2, ?_⟩
  rw [h1, h2]
  simp

/-- C10: a caller-facing search request forwards the clamped limit
`max(1, min(requestedLimit, 100))` to retrieval (default 50 when omitted);
the clamped value never exceeds 100 and is at least 1, even though
validation accepts any positive limit. -/
theorem C10_limit_clamped_to_at_most_100
    (env : QdrantEnv) (q : String) (types : Option (List String)) (l : ℚ)
    (hl : 0 < l) :
    handleSearchSimilar env q types (some l) none
        = .ok (qdrantSearchSimilar env q types (max 1 (min l 100)) SearchMode.semantic)
    ∧ 1 ≤ max 1 (min l 100)
    ∧ max 1 (min l 100) ≤ 100
    ∧ handleSearchSimilar env q types none none
        = .ok (qdrantSearchSimilar env q types 50 SearchMode.semantic) := by
  refine ⟨?_, le_max_left _ _, ?_, ?_⟩
  · simp only [handleSearchSimilar]
    rw [if_neg (not_le.mpr hl)]
    rfl
  · apply max_le
    · norm_num
    · exact min_le_right l 100
  · simp only [handleSearchSimilar, managerSearchSimilar]
    norm_num

/-- C10 witness: a validated request with limit 250 is clamped to 100. -/
theorem C10_limit_clamped_to_at_most_100_witness :
    (0 : ℚ) < 250
    ∧ handleSearchSimilar staleEnv "q" none (some 250) none
        = .ok (qdrantSearchSimilar staleEnv "q" none (max 1 (min 250 100)) SearchMode.semantic)
    ∧ (1 : ℚ) ≤ max 1 (min 250 100)
    ∧ (max 1 (min (250 : ℚ) 100)) ≤ 100
    ∧ max 1 (min (250 : ℚ) 100) = 100 := by
  have hthm := C10_limit_clamped_to_at_most_100 staleEnv "q" none 250 (by norm_num)
  exact ⟨by norm_num, hthm.1, hthm.2.1, hthm.2.2.1, by norm_num⟩

/-!
Scoped implementation fetch: `getImplementationChunks`
(src/unnamed/part_000, lines 641-668) with `extractSemanticMetadata`
(714-744), `expandLogicalScope` (764-826), `expandDependencyScope`
(828-880) and `mergeAndDeduplicate` (882-908).

The base implementation chunks come from a filter-only store query
(`getEntityImplementation`), modelled as the `base` parameter; each
expansion's store query is an `Except`-valued parameter, so the claim is
settled for every oracle outcome including failure.  The regex fallbacks
`extractCalls` / `extractImports` are plain text processing over the chunk
content and are passed in as function parameters.
-/

/-- Structured `semantic_metadata` recorded on an implementation chunk. -/
structure SemMeta where
  calls : List String
  imports_used : List String
deriving Repr, DecidableEq

/-- The derived metadata driving scope expansion. -/
structure SemanticMetadata where
  calls : List String
  imports_used : List String
  file_path : Option String
deriving Repr, DecidableEq

/-- Search result as consumed by the scope expander: relevance score and
the payload fields the expansion reads. -/
structure SearchResult where
  score : ℚ
  entity_name : String
  content : String
  semantic_metadata : Option SemMeta
  metaFilePath : Option String
deriving Repr, DecidableEq

/-- Deduplication key of `mergeAndDeduplicate` (line 886):
`result.data.entity_name || 'unknown'`. -/
def resultKey (r : SearchResult) : String :=
  jsOrS (some r.entity_name) "unknown"

/-- `extractSemanticMetadata` (lines 714-744): use the first base result's
structured `semantic_metadata` when present, else fall back to pattern
extraction over its content; `file_path` comes from the nested metadata. -/
def extractSemanticMetadata (extractCallsF extractImportsF : String → List String)
    (baseResults : List SearchResult) : SemanticMetadata :=
  match baseResults with
  | [] => { calls := [], imports_used := [], file_path := none }
  | first :: _ =>
    match first.semantic_metadata with
    | some m =>
      { calls := m.calls, imports_used := m.imports_used, file_path := first.metaFilePath }
    | none =>
      { calls := extractCallsF first.content
        imports_used := extractImportsF first.content
        file_path := first.metaFilePath }

/-- One `entityMap.set`-style update keeping the higher-scoring occurrence
(lines 885-893). -/
def updateEntityMap (m : List (String × SearchResult)) (key : String) (r : SearchResult) :
    List (String × SearchResult) :=
  match m.find? (fun p => p.1 = key) with
  | some existing =>
    if existing.2.score < r.score then
      m.map (fun p => if p.1 = key then (key, r) else p)
    else m
  | none => m ++ [(key, r)]

/-- First pass of `mergeAndDeduplicate`: map each entity name to its
highest-scoring occurrence. -/
def buildEntityMap (results : List SearchResult) : List (String × SearchResult) :=
  results.foldl (fun m r => updateEntityMap m (resultKey r) r) []

/-- Second pass of `mergeAndDeduplicate` (lines 895-905): emit the map's
entry for each key at its first occurrence, preserving first-seen order. -/
def dedupGo (entityMap : List (String × SearchResult)) :
    List SearchResult → List String → List SearchResult
  | [], _ => []
  | r :: rest, processed =>
    if processed.contains (resultKey r) then dedupGo entityMap rest processed
    else
      ((entityMap.find? (fun p => p.1 = resultKey r)).map (fun p => p.2)).toList
        ++ dedupGo entityMap rest (resultKey r :: processed)

/-- `mergeAndDeduplicate` (src/unnamed/part_000, lines 882-908). -/
def mergeAndDeduplicate (results : List SearchResult) : List SearchResult :=
  dedupGo (buildEntityMap results) results []

/-- `expandLogicalScope` (lines 764-826): without a file path, or when the
same-file helper query fails, the base results are returned unchanged;
otherwise fetched chunks are kept when they are called by the entity or
follow the leading-underscore private-helper convention, and merged. -/
def expandLogicalScope (baseResults : List SearchResult) (meta : SemanticMetadata)
    (helperQuery : Except String (List SearchResult)) : List SearchResult :=
  match meta.file_path with
  | none => baseResults
  | some _ =>
    match helperQuery with
    | .error _ => baseResults
    | .ok helperResults =>
      let additional := helperResults.filter (fun r =>
        meta.calls.contains r.entity_name || r.entity_name.startsWith "_")
      mergeAndDeduplicate (baseResults ++ additional)

/-- `expandDependencyScope` (lines 828-880): with neither imports nor
calls, or on a failed dependency query, the base results are returned
unchanged; otherwise the fetched chunks are merged. -/
def expandDependencyScope (baseResults : List SearchResult) (meta : SemanticMetadata)
    (depQuery : Except String (List SearchResult)) : List SearchResult :=
  if meta.imports_used.isEmpty ∧ meta.calls.isEmpty then baseResults
  else
    match depQuery with
    | .error _ => baseResults
    | .ok depResults => mergeAndDeduplicate (baseResults ++ depResults)

/-- Scope of an implementation fetch. -/
inductive Scope
  | minimal
  | logical
  | dependencies
deriving Repr, DecidableEq

/-- `getImplementationChunks` (src/unnamed/part_000, lines 641-668). -/
def getImplementationChunks (base : List SearchResult)
    (extractCallsF extractImportsF : String → List String)
    (helperQuery depQuery : Except String (List SearchResult))
    (scope : Scope) : List SearchResult :=
  match scope with
  | .minimal => base
  | .logical =>
    expandLogicalScope base
      (extractSemanticMetadata extractCallsF extractImportsF base) helperQuery
  | .dependencies =>
    expandDependencyScope base
      (extractSemanticMetadata extractCallsF extractImportsF base) depQuery

theorem find?_map_update_isSome (key : String) (r : SearchResult) :
    ∀ (m : List (String × SearchResult)),
      (m.find? (fun p => p.1 = key)).isSome = true →
      ((m.map (fun p => if p.1 = key then (key, r) else p)).find?
          (fun p => p.1 = key)).isSome = true := by
  intro m
  induction m with
  | nil => intro h; simp at h
  | cons p tl ih =>
    intro h
    by_cases hp : p.1 = key
    · rw [List.map_cons, if_pos hp]
      rw [List.find?_cons_of_pos _ (by simp)]
      rfl
    · rw [List.map_cons, if_neg hp]
      rw [List.find?_cons_of_neg _ (by simpa using hp)]
      rw [List.find?_cons_of_neg _ (by simpa using hp)] at h
      exact ih h

theorem find?_map_update_ne (key k : String) (r : SearchResult) (hne : k ≠ key) :
    ∀ (m : List (String × SearchResult)),
      (m.map (fun p => if p.1 = key then (key, r) else p)).find? (fun p => p.1 = k)
        = m.find? (fun p => p.1 = k) := by
  intro m
  induction m with
  | nil => rfl
  | cons p tl ih =>
    by_cases hp : p.1 = key
    · have hpk : ¬ (p.1 = k) := fun hc => hne (by rw [← hc]; exact hp)
      rw [List.map_cons, if_pos hp]
      rw [List.find?_cons_of_neg _ (by simpa using hne.symm)]
      rw [List.find?_cons_of_neg _ (by simpa using hpk)]
      exact ih
    · by_cases hpk : p.1 = k
      · rw [List.map_cons, if_neg hp]
        rw [List.find?_cons_of_pos _ (by simpa using hpk)]
        rw [List.find?_cons_of_pos _ (by simpa using hpk)]
      · rw [List.map_cons, if_neg hp]
        rw [List.find?_cons_of_neg _ (by simpa using hpk)]
        rw [List.find?_cons_of_neg _ (by simpa using hpk)]
        exact ih

theorem updateEntityMap_find_isSome_self (m : List (String × SearchResult))
    (key : String) (r : SearchResult) :
    ((updateEntityMap m key r).find? (fun p => p.1 = key)).isSome = true := by
  unfold updateEntityMap
  cases hf : m.find? (fun p => p.1 = key) with
  | none =>
    rw [List.find?_append, hf]
    simp
  | some e =>
    show (List.find? (fun p => p.1 = key)
        (if e.2.score < r.score then
          m.map (fun p => if p.1 = key then (key, r) else p) else m)).isSome = true
    by_cases hlt : e.2.score < r.score
    · rw [if_pos hlt]
      exact find?_map_update_isSome key r m (by rw [hf]; rfl)
    · rw [if_neg hlt, hf]
      rfl

theorem updateEntityMap_find_ne (m : List (String × SearchResult))
    (key k : String) (r : SearchResult) (hne : k ≠ key) :
    (updateEntityMap m key r).find? (fun p => p.1 = k)
      = m.find? (fun p => p.1 = k) := by
  unfold updateEntityMap
  cases hf : m.find? (fun p => p.1 = key) with
  | none =>
    rw [List.find?_append]
    have : List.find? (fun p => p.1 = k) [(key, r)] = none := by
      simp [hne.symm]
    cases hm : m.find? (fun p => p.1 = k) <;> simp [hm, this]
  | some e =>
    show (if e.2.score < r.score then
        m.map (fun p => if p.1 = key then (key, r) else p) else m).find?
          (fun p => p.1 = k) = m.find? (fun p => p.1 = k)
    by_cases hlt : e.2.score < r.score
    · rw [if_pos hlt]
      exact find?_map_update_ne key k r hne m
    · rw [if_neg hlt]

theorem buildFold_find_isSome (l : List SearchResult) :
    ∀ (m : List (String × SearchResult)) (k : String),
      (m.find? (fun p => p.1 = k)).isSome = true →
      (((l.foldl (fun m r => updateEntityMap m (resultKey r) r) m).find?
          (fun p => p.1 = k)).isSome = true) := by
  induction l with
  | nil => intro m k h; exact h
  | cons x tl ih =>
    intro m k h
    rw [List.foldl_cons]
    apply ih
    by_cases hk : k = resultKey x
    · rw [hk]
      exact updateEntityMap_find_isSome_self m _ x
    · rw [updateEntityMap_find_ne m _ k x hk]
      exact h

theorem buildFold_find_isSome_of_mem (l : List SearchResult) :
    ∀ (m : List (String × SearchResult)) (r : SearchResult), r ∈ l →
      (((l.foldl (fun m r => updateEntityMap m (resultKey r) r) m).find?
          (fun p => p.1 = resultKey r)).isSome = true) := by
  induction l with
  | nil => intro m r hr; exact absurd hr (List.not_mem_nil r)
  | cons x tl ih =>
    intro m r hr
    rw [List.foldl_cons]
    rcases List.mem_cons.mp hr with hrx | hrtl
    · subst hrx
      exact buildFold_find_isSome tl _ _ (updateEntityMap_find_isSome_self m _ r)
    · exact ih _ r hrtl

theorem updateEntityMap_inv (m : List (String × SearchResult)) (r : SearchResult)
    (hm : ∀ p ∈ m, p.1 = resultKey p.2) :
    ∀ p ∈ updateEntityMap m (resultKey r) r, p.1 = resultKey p.2 := by
  unfold updateEntityMap
  cases hf : m.find? (fun p => p.1 = resultKey r) with
  | none =>
    intro p hp
    rcases List.mem_append.mp hp with hin | hone
    · exact hm p hin
    · have : p = (resultKey r, r) := by simpa using hone
      rw [this]
  | some e =>
    show ∀ p ∈ (if e.2.score < r.score then
        m.map (fun p => if p.1 = resultKey r then (resultKey r, r) else p) else m),
      p.1 = resultKey p.2
    by_cases hlt : e.2.score < r.score
    · rw [if_pos hlt]
      intro p hp
      rcases List.mem_map.mp hp with ⟨q, hq, hqe⟩
      by_cases hqk : q.1 = resultKey r
      · rw [if_pos hqk] at hqe
        rw [← hqe]
      · rw [if_neg hqk] at hqe
        rw [← hqe]
        exact hm q hq
    · rw [if_neg hlt]
      exact hm

theorem buildEntityMap_inv (l : List SearchResult) :
    ∀ (m : List (String × SearchResult)), (∀ p ∈ m, p.1 = resultKey p.2) →
      ∀ p ∈ l.foldl (fun m r => updateEntityMap m (resultKey r) r) m,
        p.1 = resultKey p.2 := by
  induction l with
  | nil => intro m hm; exact hm
  | cons x tl ih =>
    intro m hm
    rw [List.foldl_cons]
    exact ih _ (updateEntityMap_inv m x hm)

theorem dedupGo_mem_key (em : List (String × SearchResult))
    (hinv : ∀ p ∈ em, p.1 = resultKey p.2) :
    ∀ (l : List SearchResult) (processed : List String) (k : String),
      k ∈ l.map resultKey → k ∉ processed →
      (em.find? (fun p => p.1 = k)).isSome = true →
      k ∈ (dedupGo em l processed).map resultKey := by
  intro l
  induction l with
  | nil =>
    intro processed k hk _ _
    exact absurd hk (by simp)
  | cons x rest ih =>
    intro processed k hk hkp hfind
    unfold dedupGo
    by_cases hkx : k = resultKey x
    · have hcont : ¬ (processed.contains (resultKey x) = true) := by
        rw [← hkx]
        intro hc
        exact hkp (by simpa using hc)
      rw [if_neg hcont]
      cases hf : em.find? (fun p => p.1 = k) with
      | none => rw [hf] at hfind; exact absurd hfind (by simp)
      | some p =>
        have hp1 : p.1 = k := by simpa using List.find?_some hf
        have hpk : resultKey p.2 = k := by
          rw [← hinv p (List.mem_of_find?_eq_some hf)]
          exact hp1
        rw [← hkx, hf]
        rw [List.map_append]
        apply List.mem_append_left
        rw [hkx] at hpk ⊢
        simp [hpk]
    · have hkrest : k ∈ rest.map resultKey := by
        rcases List.mem_map.mp hk with ⟨r, hr, hre⟩
        rcases List.mem_cons.mp hr with hrx | hrrest
        · exact absurd (by rw [← hre, hrx]) hkx
        · exact List.mem_map.mpr ⟨r, hrrest, hre⟩
      by_cases hcont : processed.contains (resultKey x) = true
      · rw [if_pos hcont]
        exact ih processed k hkrest hkp hfind
      · rw [if_neg hcont]
        rw [List.map_append]
        apply List.mem_append_right
        apply ih (resultKey x :: processed) k hkrest ?_ hfind
        intro hc
        rcases List.mem_cons.mp hc with hc1 | hc2
        · exact hkx hc1
        · exact hkp hc2

theorem mergeAndDeduplicate_key_superset (input : List SearchResult) :
    ∀ r ∈ input, resultKey r ∈ (mergeAndDeduplicate input).map resultKey := by
  intro r hr
  unfold mergeAndDeduplicate
  exact dedupGo_mem_key (buildEntityMap input)
    (buildEntityMap_inv input [] (by intro p hp; exact absurd hp (List.not_mem_nil p)))
    input [] (resultKey r) (List.mem_map_of_mem resultKey hr) (List.not_mem_nil _)
    (buildFold_find_isSome_of_mem input [] r hr)

/-- C7: for every base result set, extraction outcome and expansion-query
outcome (success or failure), the entity-name set of the `logical` scope
result and of the `dependencies` scope result each contain the entity-name
set of the `minimal` scope result — expansion only adds, never removes,
base entities. -/
theorem C7_scope_expansion_monotone (base : List SearchResult)
    (extractCallsF extractImportsF : String → List String)
    (helperQuery depQuery : Except String (List SearchResult)) :
    getImplementationChunks base extractCallsF extractImportsF
        helperQuery depQuery Scope.minimal = base
    ∧ (∀ r ∈ base, resultKey r ∈
        (getImplementationChunks base extractCallsF extractImportsF
          helperQuery depQuery Scope.logical).map resultKey)
    ∧ (∀ r ∈ base, resultKey r ∈
        (getImplementationChunks base extractCallsF extractImportsF
          helperQuery depQuery Scope.dependencies).map resultKey) := by
  refine ⟨rfl, ?_, ?_⟩
  · intro r hr
    show resultKey r ∈ (expandLogicalScope base _ helperQuery).map resultKey
    unfold expandLogicalScope
    cases (extractSemanticMetadata extractCallsF extractImportsF base).file_path with
    | none => exact List.mem_map_of_mem resultKey hr
    | some fp =>
      cases helperQuery with
      | error e => exact List.mem_map_of_mem resultKey hr
      | ok helperResults =>
        exact mergeAndDeduplicate_key_superset _ r (List.mem_append_left _ hr)
  · intro r hr
    show resultKey r ∈ (expandDependencyScope base _ depQuery).map resultKey
    unfold expandDependencyScope
    by_cases hempty : ((extractSemanticMetadata extractCallsF extractImportsF
        base).imports_used.isEmpty = true)
        ∧ ((extractSemanticMetadata extractCallsF extractImportsF base).calls.isEmpty = true)
    · rw [if_pos hempty]
      exact List.mem_map_of_mem resultKey hr
    · rw [if_neg hempty]
      cases depQuery with
      | error e => exact List.mem_map_of_mem resultKey hr
      | ok depResults =>
        exact mergeAndDeduplicate_key_superset _ r (List.mem_append_left _ hr)

/-!
Token-budgeted flat views of `StreamingResponseBuilder`
(src/src/streamingResponseBuilder.ts): `fitContentToBudget` (lines
319-345) with the 80%-slice reducers of `buildEntitiesStreamingResponse`
(226-260) and `buildRelationshipsStreamingResponse` (282-314), and the
all-or-nothing `buildRawStreamingResponse` (350-386).

`tokenCounter.fitsInBudget` lives in src/src/tokenCounter.ts, which is not
under src/; the fit check is therefore abstracted as a parameter
`fits : Content → Bool` evaluated against a fixed remaining budget, which
is how the two flat call sites use it (the budget is not consumed inside
the loop).  `Math.floor(0.8 * n)` is modelled as `4 * n / 5`.  The JS
`while` loop is written with a fuel argument equal to the initial list
length; because the 80% slice strictly shrinks a non-empty list, this fuel
is never exhausted before the loop's own exit conditions (fit or empty)
apply, so the fuel variant equals the source loop.
-/

/-- A flat graph content: entities plus relations. -/
structure Content where
  entities : List Entity
  relations : List Relation
deriving Repr, DecidableEq

/-- The flat reducers' slice to 80% of the previous length
(streamingResponseBuilder.ts, lines 244 and 298). -/
def shrink80 {α : Type} (l : List α) : List α :=
  l.take (4 * l.length / 5)

theorem shrink80_length_lt {α : Type} (l : List α) (h : l.length ≠ 0) :
    (shrink80 l).length < l.length := by
  unfold shrink80
  rw [List.length_take]
  have h5 : 4 * l.length / 5 < l.length := by
    rw [Nat.div_lt_iff_lt_mul (by norm_num)]
    omega
  omega

/-- The `while` loop of `fitContentToBudget` over one flat list: while the
content does not fit, slice to 80% of the previous length; exit when it
fits or the list becomes empty.  The boolean accumulator is the
`truncated` flag. -/
def fitListLoopFuel {α : Type} (fits : List α → Bool) :
    Nat → List α → Bool → List α × Bool
  | 0, l, trunc => (l, trunc)
  | fuel + 1, l, trunc =>
    if l.length = 0 then (l, trunc)
    else if fits l then (l, trunc)
    else fitListLoopFuel fits fuel (shrink80 l) true

/-- `fitContentToBudget` (streamingResponseBuilder.ts, lines 319-345)
specialised to a flat list and its 80% reducer. -/
def fitListToBudget {α : Type} (fits : List α → Bool) (l : List α) : List α × Bool :=
  fitListLoopFuel fits l.length l false

/-- `filterAndLimitEntities` (streamingResponseBuilder.ts, lines 265-277);
a limit of 0 is falsy in JS and applies no slice. -/
def filterAndLimitEntities (entities : List Entity)
    (entityTypes : Option (List String)) (limit : Option Nat) : List Entity :=
  let result := match entityTypes with
    | some ts => if ts.isEmpty then entities
        else entities.filter (fun e => ts.contains e.entityType)
    | none => entities
  match limit with
  | some n => if n = 0 then result else result.take n
  | none => result

/-- `buildEntitiesStreamingResponse` (streamingResponseBuilder.ts, lines
226-260): filter and limit, then fit the entity list to the budget with
the 80% reducer; relations are empty in this view. -/
def buildEntitiesStreamingResponse (fits : Content → Bool) (entities : List Entity)
    (entityTypes : Option (List String)) (limit : Option Nat) : Content × Bool :=
  let filtered := filterAndLimitEntities entities entityTypes limit
  let res := fitListToBudget (fun l => fits ⟨l, []⟩) filtered
  (⟨res.1, []⟩, res.2)

/-- `buildRelationshipsStreamingResponse` (streamingResponseBuilder.ts,
lines 282-314): fit the relation list to the budget with the 80% reducer;
entities are empty in this view. -/
def buildRelationshipsStreamingResponse (fits : Content → Bool)
    (relations : List Relation) : Content × Bool :=
  let res := fitListToBudget (fun l => fits ⟨[], l⟩) relations
  (⟨[], res.1⟩, res.2)

/-- `buildRawStreamingResponse` (streamingResponseBuilder.ts, lines
350-386): the whole combined list is fit-checked once; when it does not
fit, the response is the empty content flagged truncated — no shrinking. -/
def buildRawStreamingResponse (fits : Content → Bool) (entities : List Entity)
    (relations : List Relation) : Content × Bool :=
  if fits ⟨entities, relations⟩ then (⟨entities, relations⟩, false)
  else (⟨[], []⟩, true)

theorem fitListLoopFuel_spec {α : Type} (fits : List α → Bool) :
    ∀ (fuel : Nat) (l : List α) (trunc : Bool), l.length ≤ fuel →
      (∃ k, (fitListLoopFuel fits fuel l trunc).1 = shrink80^[k] l)
      ∧ (fits (fitListLoopFuel fits fuel l trunc).1 = true
          ∨ (fitListLoopFuel fits fuel l trunc).1 = [])
      ∧ ((fitListLoopFuel fits fuel l trunc).2 = true
          ↔ (trunc = true ∨ (fits l = false ∧ l ≠ []))) := by
  intro fuel
  induction fuel with
  | zero =>
    intro l trunc hlen
    have hl : l = [] := List.eq_nil_of_length_eq_zero (Nat.le_zero.mp hlen)
    subst hl
    refine ⟨⟨0, rfl⟩, Or.inr rfl, ?_⟩
    simp [fitListLoopFuel]
  | succ fuel ih =>
    intro l trunc hlen
    by_cases hlen0 : l.length = 0
    · have hl : l = [] := List.eq_nil_of_length_eq_zero hlen0
      subst hl
      refine ⟨⟨0, rfl⟩, Or.inr rfl, ?_⟩
      simp [fitListLoopFuel]
    · by_cases hfits : fits l = true
      · have hred : fitListLoopFuel fits (fuel + 1) l trunc = (l, trunc) := by
          simp [fitListLoopFuel, hlen0, hfits]
        rw [hred]
        refine ⟨⟨0, rfl⟩, Or.inl hfits, ?_⟩
        simp [hfits]
      · have hred : fitListLoopFuel fits (fuel + 1) l trunc
            = fitListLoopFuel fits fuel (shrink80 l) true := by
          simp [fitListLoopFuel, hlen0, hfits]
        rw [hred]
        have hlt : (shrink80 l).length < l.length := shrink80_length_lt l hlen0
        have hih := ih (shrink80 l) true (by omega)
        refine ⟨?_, hih.2.1, ?_⟩
        · obtain ⟨k, hk⟩ := hih.1
          exact ⟨k + 1, by rw [Function.iterate_succ_apply, hk]⟩
        · rw [hih.2.2]
          constructor
          · intro _
            exact Or.inr ⟨by simpa using hfits, fun hc => hlen0 (by rw [hc]; rfl)⟩
          · intro _
            exact Or.inl rfl

/-- C8 (amended): for the entities-only and relations-only flat views the
fit check applies to the whole (filtered) list, and a list that does not
fit is sliced to 80% of its previous length repeatedly until it fits or is
empty, with the truncated flag set exactly when at least one slice
happened; the raw combined view instead applies the fit check to the whole
list once and, when it does not fit, returns the empty content flagged
truncated rather than shrinking. -/
theorem C8_flat_views_backoff (fits : Content → Bool) (entities : List Entity)
    (relations : List Relation) (entityTypes : Option (List String))
    (limit : Option Nat) :
    (∃ k, (buildEntitiesStreamingResponse fits entities entityTypes limit).1.entities
        = shrink80^[k] (filterAndLimitEntities entities entityTypes limit))
    ∧ (fits ⟨(buildEntitiesStreamingResponse fits entities entityTypes limit).1.entities, []⟩
          = true
        ∨ (buildEntitiesStreamingResponse fits entities entityTypes limit).1.entities = [])
    ∧ ((buildEntitiesStreamingResponse fits entities entityTypes limit).2 = true
        ↔ (fits ⟨filterAndLimitEntities entities entityTypes limit, []⟩ = false
           ∧ filterAndLimitEntities entities entityTypes limit ≠ []))
    ∧ (∃ k, (buildRelationshipsStreamingResponse fits relations).1.relations
        = shrink80^[k] relations)
    ∧ (fits ⟨[], (buildRelationshipsStreamingResponse fits relations).1.relations⟩ = true
        ∨ (buildRelationshipsStreamingResponse fits relations).1.relations = [])
    ∧ ((buildRelationshipsStreamingResponse fits relations).2 = true
        ↔ (fits ⟨[], relations⟩ = false ∧ relations ≠ []))
    ∧ (fits ⟨entities, relations⟩ = true →
        buildRawStreamingResponse fits entities relations = (⟨entities, relations⟩, false))
    ∧ (fits ⟨entities, relations⟩ = false →
        buildRawStreamingResponse fits entities relations = (⟨[], []⟩, true)) := by
  have hent := fitListLoopFuel_spec (fun l => fits ⟨l, []⟩)
    (filterAndLimitEntities entities entityTypes limit).length
    (filterAndLimitEntities entities entityTypes limit) false (le_refl _)
  have hrel := fitListLoopFuel_spec (fun l => fits ⟨[], l⟩)
    relations.length relations false (le_refl _)
  refine ⟨hent.1, hent.2.1, ?_, hrel.1, hrel.2.1, ?_, ?_, ?_⟩
  · show (fitListToBudget (fun l => fits ⟨l, []⟩)
        (filterAndLimitEntities entities entityTypes limit)).2 = true ↔ _
    rw [show fitListToBudget (fun l => fits ⟨l, []⟩)
        (filterAndLimitEntities entities entityTypes limit)
      = fitListLoopFuel (fun l => fits ⟨l, []⟩)
          (filterAndLimitEntities entities entityTypes limit).length
          (filterAndLimitEntities entities entityTypes limit) false from rfl]
    rw [hent.2.2]
    simp
  · show (fitListToBudget (fun l => fits ⟨[], l⟩) relations).2 = true ↔ _
    rw [show fitListToBudget (fun l => fits ⟨[], l⟩) relations
      = fitListLoopFuel (fun l => fits ⟨[], l⟩) relations.length relations false from rfl]
    rw [hrel.2.2]
    simp
  · intro hfits
    unfold buildRawStreamingResponse
    rw [if_pos hfits]
  · intro hfits
    unfold buildRawStreamingResponse
    rw [if_neg (by simp [hfits])]

/-- A fit check that admits at most four entities. -/
def capEntities4 : Content → Bool := fun c => c.entities.length ≤ 4

/-- Five distinct entities. -/
def fiveEntities : List Entity :=
  [Entity.mk "e1" "t" [], Entity.mk "e2" "t" [], Entity.mk "e3" "t" [],
   Entity.mk "e4" "t" [], Entity.mk "e5" "t" []]

/-- C8 counterexample: with a fit check admitting at most four entities
and a five-entity raw view, the claimed 80% backoff would return the
four-entity truncated list (as the entities-only view does), but the raw
builder returns the empty content instead — the raw view does not shrink. -/
theorem C8_raw_view_no_backoff_counterexample :
    buildRawStreamingResponse capEntities4 fiveEntities [] = (⟨[], []⟩, true)
    ∧ fitListToBudget (fun l => capEntities4 ⟨l, []⟩) fiveEntities
        = (fiveEntities.take 4, true)
    ∧ (⟨[], []⟩ : Content) ≠ ⟨fiveEntities.take 4, []⟩ := by
  refine ⟨by decide, by decide, by decide⟩
